import Mathlib

/-!
Verification development for the Amazeing puzzle repository.

The JS sources embedded here (shallowly) are:
  * `src/js/game/LevelManager.js` — the bundled `Grid`, `LevelGenerator` and
    `PathManager` classes;
  * `src/unnamed/part_001` — the `GameState` class (session state, undo history);
  * `src/js/game/GameController.js` — the position helpers
    (`posKey`/`posEquals`/`areAdjacent`) and `GameController.loadLevel`.

Modelling conventions:
  * a board position is a pair of integers `(row, col)`; the JS string keys
    `"row,col"` used in `Set`s and `Map`s are an injective encoding of such
    pairs, so JS sets of keys become `Finset Pos`;
  * JS `null`/`undefined` results become `Option`;
  * the mutable cell matrix of `Grid` becomes a total function `Pos → Cell`
    together with the grid size; `getCell` performs the same bounds check the
    JS does (`isValidPosition`), so out-of-bounds reads are `none`;
  * `Math.random()` draws are modelled by an oracle `Nat → Nat` read at a
    strictly increasing cursor, one fresh index per JS `Math.random()` call
    (each draw is reduced modulo its bound, so every JS behaviour is a
    possible oracle behaviour).
-/

namespace Amazeing

/-- A grid position `(row, col)`. Coordinates are `Int` because the JS
functions accept arbitrary numbers (including negative / out-of-bounds). -/
abbrev Pos := Int × Int

/-- Helpers.js `posEquals`. -/
def posEquals (p q : Pos) : Bool := p.1 = q.1 && p.2 = q.2

/-- Helpers.js `areAdjacent`: horizontally or vertically adjacent
(`|Δrow| = 1 ∧ |Δcol| = 0` or `|Δrow| = 0 ∧ |Δcol| = 1`). -/
def areAdjacent (p q : Pos) : Bool :=
  ((p.1 - q.1).natAbs = 1 && (p.2 - q.2).natAbs = 0) ||
  ((p.1 - q.1).natAbs = 0 && (p.2 - q.2).natAbs = 1)

/-- One cell record of `Grid._createGrid` (the `row`/`col` fields of the JS
record are the index of the cell and are kept implicit here). -/
structure Cell where
  occupied : Bool
  pathNumber : Option Int
  isPoint : Bool
  pointNumber : Option Int
deriving DecidableEq, Repr

/-- The fresh cell produced by `Grid._createGrid`. -/
def Cell.fresh : Cell := ⟨false, none, false, none⟩

/-- A numbered point of a level: `{number, row, col}`. -/
structure Point where
  number : Int
  row : Int
  col : Int
deriving DecidableEq, Repr

/-- The position of a point. -/
def Point.pos (p : Point) : Pos := (p.row, p.col)

/-- One solution segment `{from, to, path}` of a generated level (the JS field
`from` is called `fromPoint` here because `from` is reserved in Lean). -/
structure Segment where
  fromPoint : Int
  toPoint : Int
  path : List Pos
deriving DecidableEq, Repr

/-- Level data as far as the engine consumes it: `size`, `points`,
`obstacles`, `solution` (plus the cosmetic `theme`/`difficulty` numbers of
generated levels; `id`/`name` strings are dropped as pure UI data). -/
structure Level where
  size : Nat
  points : List Point
  obstacles : List Pos
  solution : List Segment
  theme : Nat := 0
  difficulty : Nat := 0
deriving DecidableEq, Repr

/-! ## The `Grid` class (src/js/game/LevelManager.js) -/

/-- The `Grid` class: the `size × size` cell matrix as a function from
positions, and the `points` map (`Map` of key → point number) as a function
from positions. -/
structure Grid where
  size : Nat
  cells : Pos → Cell
  points : Pos → Option Int

/-- `new Grid(size)`: fresh cells, empty points map. -/
def Grid.create (size : Nat) : Grid :=
  { size := size, cells := fun _ => Cell.fresh, points := fun _ => none }

/-- `Grid.isValidPosition`. -/
def Grid.isValidPosition (g : Grid) (row col : Int) : Bool :=
  0 ≤ row && row < (g.size : Int) && 0 ≤ col && col < (g.size : Int)

/-- `Grid.getCell`: `null` out of bounds. -/
def Grid.getCell (g : Grid) (row col : Int) : Option Cell :=
  if g.isValidPosition row col then some (g.cells (row, col)) else none

/-- Pointwise update of the cell matrix (mutation of the JS cell record). -/
def Grid.setCell (g : Grid) (p : Pos) (c : Cell) : Grid :=
  { g with cells := fun q => if q = p then c else g.cells q }

/-- `Grid.occupyCell`: if the cell exists, set `occupied`/`pathNumber`. -/
def Grid.occupyCell (g : Grid) (row col : Int) (pathNumber : Int) : Grid :=
  match g.getCell row col with
  | none => g
  | some c => g.setCell (row, col) { c with occupied := true, pathNumber := some pathNumber }

/-- `Grid.releaseCell`: clear occupancy unless the cell is a point. -/
def Grid.releaseCell (g : Grid) (row col : Int) : Grid :=
  match g.getCell row col with
  | none => g
  | some c =>
    if c.isPoint then g
    else g.setCell (row, col) { c with occupied := false, pathNumber := none }

/-- `Grid.setPoint`: mark the cell and record the number in the points map. -/
def Grid.setPoint (g : Grid) (row col : Int) (pointNumber : Int) : Grid :=
  match g.getCell row col with
  | none => g
  | some c =>
    let g' := g.setCell (row, col) { c with isPoint := true, pointNumber := some pointNumber }
    { g' with points := fun q => if q = (row, col) then some pointNumber else g.points q }

/-- `Grid.getPointAt`: `this.points.get(key) || null` — note the JS `||`
also maps a stored `0` to `null`. -/
def Grid.getPointAt (g : Grid) (row col : Int) : Option Int :=
  match g.points (row, col) with
  | some n => if n = 0 then none else some n
  | none => none

/-- `Grid.reset`: clear occupancy of every cell (both branches of the JS
conditional perform the same assignment), keep points. -/
def Grid.reset (g : Grid) : Grid :=
  { g with cells := fun q => { g.cells q with occupied := false, pathNumber := none } }

/-- `Grid.initializePoints` (renamed: `setupPoints`): rebuild a fresh cell
matrix, clear the points map, then `setPoint` every level point in order. -/
def Grid.setupPoints (g : Grid) (pts : List Point) : Grid :=
  let g0 : Grid := { g with cells := fun _ => Cell.fresh, points := fun _ => none }
  pts.foldl (fun acc p => acc.setPoint p.row p.col p.number) g0

/-- `Grid.rebuildFromPaths`: reset, then `occupyCell` every cell of every
path. -/
def Grid.rebuildFromPathCells (g : Grid) (number : Int) (cells : List Pos) : Grid :=
  cells.foldl (fun acc c => acc.occupyCell c.1 c.2 number) g

/-! ## The `GameState` class (src/unnamed/part_001) -/

/-- A committed or in-progress path `{number, cells}`. -/
structure PathObj where
  number : Int
  cells : List Pos
deriving DecidableEq, Repr

/-- One undo snapshot of `GameState.saveSnapshot`. -/
structure Snapshot where
  paths : List PathObj
  occupiedCells : Finset Pos
  currentNumber : Int
  connectedPoints : Finset Int
deriving DecidableEq

/-- The session part of `GameState._state`. Fields that none of the modelled
operations read or that are pure UI/timer data (`levelId`, `theme`,
`gameState`, timer fields, `hintsUsed`) are omitted. -/
structure GameState where
  occupiedCells : Finset Pos
  paths : List PathObj
  currentPath : Option PathObj
  points : List Point
  totalPoints : Nat
  connectedPoints : Finset Int
  currentNumber : Int
  isComplete : Bool
  history : List Snapshot

/-- `maxHistory` (a constant field of `GameState._state`). -/
def maxHistory : Nat := 50

/-- `GameState.loadLevel` followed by the `reset()` it performs: fresh session
for the given level. -/
def GameState.load (lvl : Level) : GameState :=
  { occupiedCells := ∅, paths := [], currentPath := none, points := lvl.points,
    totalPoints := lvl.points.length, connectedPoints := ∅, currentNumber := 1,
    isComplete := false, history := [] }

/-- `GameState.startPath`. -/
def GameState.startPath (s : GameState) (row col pointNumber : Int) : GameState :=
  { s with currentPath := some ⟨pointNumber, [(row, col)]⟩,
           occupiedCells := insert (row, col) s.occupiedCells }

/-- `GameState.extendPath`. -/
def GameState.extendPath (s : GameState) (row col : Int) : GameState :=
  match s.currentPath with
  | none => s
  | some p =>
    { s with currentPath := some { p with cells := p.cells ++ [(row, col)] },
             occupiedCells := insert (row, col) s.occupiedCells }

/-- `GameState.truncatePath`: keep indices `0..fromIndex`, delete the removed
cells from `occupiedCells`. -/
def GameState.truncatePath (s : GameState) (fromIndex : Nat) : GameState :=
  match s.currentPath with
  | none => s
  | some p =>
    let removed := p.cells.drop (fromIndex + 1)
    { s with currentPath := some { p with cells := p.cells.take (fromIndex + 1) },
             occupiedCells := removed.foldl (fun acc c => acc.erase c) s.occupiedCells }

/-- `GameState.saveSnapshot`: push the snapshot, then `shift()` the oldest
entry if the stack exceeds `maxHistory`. -/
def GameState.saveSnapshot (s : GameState) : GameState :=
  let snap : Snapshot := ⟨s.paths, s.occupiedCells, s.currentNumber, s.connectedPoints⟩
  let h := s.history ++ [snap]
  { s with history := if h.length > maxHistory then h.drop 1 else h }

/-- `GameState.completePath`: append the final cell and mark it occupied,
save a snapshot, commit the path, advance `currentNumber`, clear the active
path, and run `_checkCompletion`. -/
def GameState.completePath (s : GameState) (endRow endCol : Int) : GameState :=
  match s.currentPath with
  | none => s
  | some p =>
    let p' : PathObj := { p with cells := p.cells ++ [(endRow, endCol)] }
    let s1 := { s with currentPath := some p',
                       occupiedCells := insert (endRow, endCol) s.occupiedCells }
    let s2 := s1.saveSnapshot
    let s3 := { s2 with paths := s2.paths ++ [p'],
                        connectedPoints := insert (p'.number + 1) (insert p'.number s2.connectedPoints),
                        currentNumber := p'.number + 1,
                        currentPath := none }
    if s3.connectedPoints.card = s3.totalPoints then { s3 with isComplete := true } else s3

/-- `GameState.cancelPath`: delete every cell but the starting point from
`occupiedCells`, drop the active path. -/
def GameState.cancelPath (s : GameState) : GameState :=
  match s.currentPath with
  | none => s
  | some p =>
    { s with currentPath := none,
             occupiedCells := (p.cells.drop 1).foldl (fun acc c => acc.erase c) s.occupiedCells }

/-- `GameState.undo`: pop the newest snapshot (the JS `Array.pop` takes the
last element) and restore it; returns `false` when the history is empty. -/
def GameState.undo (s : GameState) : Bool × GameState :=
  match s.history.getLast? with
  | none => (false, s)
  | some snap =>
    (true, { s with paths := snap.paths, occupiedCells := snap.occupiedCells,
                    currentNumber := snap.currentNumber,
                    connectedPoints := snap.connectedPoints,
                    currentPath := none, history := s.history.dropLast })

/-- `GameState.canUndo`. -/
def GameState.canUndo (s : GameState) : Bool := s.history.length > 0

/-- `GameState.getCurrentPathEnd`. -/
def GameState.getCurrentPathEnd (s : GameState) : Option Pos :=
  match s.currentPath with
  | none => none
  | some p => p.cells.getLast?

/-- `GameState.findInCurrentPath`: the JS returns `-1` or an index; we return
`Option Nat` (`none` for `-1`). -/
def GameState.findInCurrentPath (s : GameState) (row col : Int) : Option Nat :=
  match s.currentPath with
  | none => none
  | some p => p.cells.findIdx? (fun c => c.1 = row && c.2 = col)

/-! ## The `PathManager` class (src/js/game/LevelManager.js)

`PathManager` mutates the shared singleton `gameState` together with its
`Grid`; here the pair is passed explicitly as a `Sys`. -/

/-- The state a `PathManager` operates on: its grid plus the `gameState`
singleton. -/
structure Sys where
  grid : Grid
  gs : GameState

/-- Failure reasons of the stroke state machine (§7 of the spec). -/
inductive Reason where
  | not_a_point | wrong_point | already_drawing
  | no_active_path | no_path_end | same_cell | not_adjacent
  | cell_occupied | invalid_cell
deriving DecidableEq, Repr

/-- Result of `tryStartPath` / `tryExtendPath`: `{success, completed?,
backtracked?, reason?}`. -/
structure OpResult where
  success : Bool
  completed : Bool := false
  backtracked : Bool := false
  reason : Option Reason := none
deriving DecidableEq, Repr

/-- `PathManager.tryStartPath`. -/
def tryStartPath (sys : Sys) (row col : Int) : OpResult × Sys :=
  match sys.grid.getPointAt row col with
  | none => ({ success := false, reason := some .not_a_point }, sys)
  | some point =>
    if point ≠ sys.gs.currentNumber then
      ({ success := false, reason := some .wrong_point }, sys)
    else if sys.gs.currentPath.isSome then
      ({ success := false, reason := some .already_drawing }, sys)
    else
      ({ success := true },
       { sys with gs := sys.gs.startPath row col point,
                  grid := sys.grid.occupyCell row col point })

/-- `PathManager.tryExtendPath`: the nine branches, in source order. -/
def tryExtendPath (sys : Sys) (row col : Int) : OpResult × Sys :=
  match sys.gs.currentPath with
  | none => ({ success := false, reason := some .no_active_path }, sys)
  | some p =>
    match sys.gs.getCurrentPathEnd with
    | none => ({ success := false, reason := some .no_path_end }, sys)
    | some pathEnd =>
      if posEquals pathEnd (row, col) then
        ({ success := false, reason := some .same_cell }, sys)
      else if ¬ areAdjacent pathEnd (row, col) then
        ({ success := false, reason := some .not_adjacent }, sys)
      else
        match sys.gs.findInCurrentPath row col with
        | some existingIndex =>
          -- backtracking: release the cells after the index, truncate
          let cellsToRemove := p.cells.drop (existingIndex + 1)
          let grid' := cellsToRemove.foldl (fun g c => g.releaseCell c.1 c.2) sys.grid
          ({ success := true, backtracked := true },
           { grid := grid', gs := sys.gs.truncatePath existingIndex })
        | none =>
          match sys.grid.getCell row col with
          | none => ({ success := false, reason := some .invalid_cell }, sys)
          | some cell =>
            let targetNumber := sys.gs.currentNumber + 1
            if cell.isPoint ∧ cell.pointNumber = some targetNumber then
              -- complete: after `completePath` the active path is `null`, so
              -- the JS `currentPath?.number || targetNumber - 1` is
              -- `targetNumber - 1`
              ({ success := true, completed := true },
               { gs := sys.gs.completePath row col,
                 grid := sys.grid.occupyCell row col (targetNumber - 1) })
            else if cell.occupied ∨ (cell.isPoint ∧ cell.pointNumber ≠ some targetNumber) then
              ({ success := false, reason := some .cell_occupied }, sys)
            else
              ({ success := true },
               { gs := sys.gs.extendPath row col,
                 grid := sys.grid.occupyCell row col p.number })

/-- `PathManager.cancelPath`: release every cell of the active path except
index 0, then `gameState.cancelPath()`. -/
def cancelPath (sys : Sys) : Sys :=
  match sys.gs.currentPath with
  | none => sys
  | some p =>
    { grid := (p.cells.drop 1).foldl (fun g c => g.releaseCell c.1 c.2) sys.grid,
      gs := sys.gs.cancelPath }

/-- `PathManager.undo`: `gameState.undo()` then rebuild the grid from the
restored committed paths (`reset`, `initializePoints`, `rebuildFromPaths`). -/
def sysUndo (sys : Sys) : Bool × Sys :=
  if ¬ sys.gs.canUndo then (false, sys)
  else
    let (ok, gs') := sys.gs.undo
    if ok then
      let g1 := (sys.grid.reset).setupPoints gs'.points
      let g2 := gs'.paths.foldl (fun g p => g.rebuildFromPathCells p.number p.cells) g1
      (true, { grid := g2, gs := gs' })
    else (false, { sys with gs := gs' })

/-- `GameController.loadLevel` as far as it touches the engine: fresh grid,
`initializePoints`, fresh session state. -/
def Sys.loadLevel (lvl : Level) : Sys :=
  { grid := (Grid.create lvl.size).setupPoints lvl.points,
    gs := GameState.load lvl }

/-- The session states reachable from a freshly loaded level by the stroke
operations `tryStart` / `tryExtend` / `cancel` / `undo`. -/
inductive Reachable (lvl : Level) : Sys → Prop where
  | load : Reachable lvl (Sys.loadLevel lvl)
  | start (row col : Int) {s : Sys} (h : Reachable lvl s) :
      Reachable lvl (tryStartPath s row col).2
  | extend (row col : Int) {s : Sys} (h : Reachable lvl s) :
      Reachable lvl (tryExtendPath s row col).2
  | cancel {s : Sys} (h : Reachable lvl s) : Reachable lvl (cancelPath s)
  | undo {s : Sys} (h : Reachable lvl s) : Reachable lvl (sysUndo s).2

/-! ## Claim C1: the undo round trip after a commit -/

/-- Pushing a snapshot leaves it on top of the (possibly clamped) stack. -/
theorem saveSnapshot_getLast (s : GameState) :
    (s.saveSnapshot).history.getLast? =
      some ⟨s.paths, s.occupiedCells, s.currentNumber, s.connectedPoints⟩ := by
  dsimp only [GameState.saveSnapshot]
  split <;> rename_i hl
  · rcases hh : s.history with _ | ⟨y, t⟩
    · simp [hh, maxHistory] at hl
    · simp
  · simp

/-- A tiny two-point level: point 1 at `(0,0)`, point 2 at `(0,1)`. -/
def lvlC1 : Level := { size := 2, points := [⟨1, 0, 0⟩, ⟨2, 0, 1⟩], obstacles := [], solution := [] }

def sysC1a : Sys := (tryStartPath (Sys.loadLevel lvlC1) 0 0).2

def sysC1b : Sys := (tryExtendPath sysC1a 0 1).2

example : (tryStartPath (Sys.loadLevel lvlC1) 0 0).1.success = true := by decide

example : (tryExtendPath sysC1a 0 1).1 = { success := true, completed := true } := by decide

example : sysC1a.gs.occupiedCells = {((0 : Int), (0 : Int))} := by decide

example : (sysUndo sysC1b).2.gs.occupiedCells = {((0 : Int), (0 : Int)), ((0 : Int), (1 : Int))} := by
  decide

/-- C1, counterexample. On the two-point level `lvlC1`, starting at point 1
and extending onto point 2 commits a path; the snapshot is taken only after
`completePath` has already added the end cell to `occupiedCells`, so the
`undo` that follows restores the occupied-cell set to `{(0,0), (0,1)}` — not
to `{(0,0)}`, its value just before the completing `tryExtend` call.  This
refutes the claim's requirement that the restored occupied-cell set equal the
pre-`tryExtend` occupied-cell set. -/
theorem c1_undo_occupancy_counterexample :
    Reachable lvlC1 sysC1b ∧
    (tryExtendPath sysC1a 0 1).1 = { success := true, completed := true } ∧
    (sysUndo sysC1b).1 = true ∧
    sysC1a.gs.occupiedCells = {((0 : Int), (0 : Int))} ∧
    (sysUndo sysC1b).2.gs.occupiedCells ≠ sysC1a.gs.occupiedCells :=
  ⟨Reachable.extend 0 1 (Reachable.start 0 0 Reachable.load),
   by decide, by decide, by decide, by decide⟩

/-- C1, amended: an `undo()` performed immediately after a commit succeeds and
restores the committed-paths list, the connected-points set and
`currentNumber` to exactly their values before the completing `tryExtend`
call, clears the active path, and restores the occupied-cell set to its value
at the moment the snapshot was taken — namely the pre-`tryExtend` occupied
set **plus the completing endpoint cell**, because `completePath` inserts the
end cell before calling `saveSnapshot`. -/
theorem c1_undo_roundtrip (s : GameState) (p : PathObj) (h : s.currentPath = some p)
    (r c : Int) :
    ((s.completePath r c).undo).1 = true ∧
    ((s.completePath r c).undo).2.paths = s.paths ∧
    ((s.completePath r c).undo).2.connectedPoints = s.connectedPoints ∧
    ((s.completePath r c).undo).2.currentNumber = s.currentNumber ∧
    ((s.completePath r c).undo).2.occupiedCells = insert (r, c) s.occupiedCells ∧
    ((s.completePath r c).undo).2.currentPath = none := by
  have hsnap := saveSnapshot_getLast
    { s with currentPath := some { p with cells := p.cells ++ [(r, c)] },
             occupiedCells := insert (r, c) s.occupiedCells }
  dsimp only [GameState.completePath]
  rw [h]
  dsimp only
  split <;>
    simp_all [GameState.undo]

/-- C1 witness: the amended round trip, instantiated on the concrete session
of `lvlC1` right before its completing extend. -/
theorem c1_undo_roundtrip_witness :
    ((sysC1a.gs.completePath 0 1).undo).1 = true ∧
    ((sysC1a.gs.completePath 0 1).undo).2.paths = sysC1a.gs.paths ∧
    ((sysC1a.gs.completePath 0 1).undo).2.connectedPoints = sysC1a.gs.connectedPoints ∧
    ((sysC1a.gs.completePath 0 1).undo).2.currentNumber = sysC1a.gs.currentNumber ∧
    ((sysC1a.gs.completePath 0 1).undo).2.occupiedCells =
      insert (0, 1) sysC1a.gs.occupiedCells ∧
    ((sysC1a.gs.completePath 0 1).undo).2.currentPath = none :=
  c1_undo_roundtrip sysC1a.gs ⟨1, [(0, 0)]⟩ (by decide) 0 1

/-! ## Claim C2: occupancy of obstacle cells -/

/-- A 3×3 level with an obstacle at `(1,1)`. -/
def lvlC2 : Level :=
  { size := 3, points := [⟨1, 0, 0⟩, ⟨2, 0, 2⟩], obstacles := [(1, 1)], solution := [] }

/-- C2, evaluation at the failing input. The interactive `Grid` built by
`GameController.loadLevel` records no obstacle information at all, so
`occupyCell` applied to the obstacle cell `(1,1)` of the loaded level is not
a no-op or an error: it marks the obstacle cell as occupied by path 1. -/
theorem c2_occupy_obstacle_failing :
    (1, 1) ∈ lvlC2.obstacles ∧
    (((Sys.loadLevel lvlC2).grid.occupyCell 1 1 1).cells (1, 1)).occupied = true ∧
    (((Sys.loadLevel lvlC2).grid.occupyCell 1 1 1).cells (1, 1)).pathNumber = some 1 := by
  refine ⟨by decide, by decide, by decide⟩

/-! ## Claim C10: totality of `tryExtendPath` and the `invalid_cell` branch -/

/-- C10: `tryExtendPath` is a total function of arbitrary integer
coordinates (it always returns an `OpResult`, never a fault), and when the
target cell is outside the grid bounds while being 4-adjacent to the active
path's end, different from it, and not already in the active path, it fails
with reason `invalid_cell` and leaves the whole system state unchanged. -/
theorem c10_out_of_bounds_invalid_cell (sys : Sys) (p : PathObj) (e : Pos) (row col : Int)
    (hp : sys.gs.currentPath = some p)
    (he : sys.gs.getCurrentPathEnd = some e)
    (hne : posEquals e (row, col) = false)
    (hadj : areAdjacent e (row, col) = true)
    (hfind : sys.gs.findInCurrentPath row col = none)
    (hoob : sys.grid.isValidPosition row col = false) :
    tryExtendPath sys row col = ({ success := false, reason := some .invalid_cell }, sys) := by
  dsimp only [tryExtendPath]
  rw [hp]
  dsimp only
  rw [he]
  simp [hne, hadj, hfind, Grid.getCell, hoob]

/-- C10 witness: after starting at point 1 of `lvlC1`, extending to the
out-of-bounds cell `(0,-1)` fails with `invalid_cell` and changes nothing. -/
theorem c10_out_of_bounds_invalid_cell_witness :
    tryExtendPath sysC1a 0 (-1) =
      ({ success := false, reason := some .invalid_cell }, sysC1a) :=
  c10_out_of_bounds_invalid_cell sysC1a ⟨1, [(0, 0)]⟩ (0, 0) 0 (-1)
    (by decide) (by decide) (by decide) (by decide) (by decide) (by decide)

/-! ## Grid characterization lemmas -/

/-- Bounds check for a position against a grid size (the body of
`Grid.isValidPosition`). -/
def inBounds (size : Nat) (p : Pos) : Bool :=
  0 ≤ p.1 && p.1 < (size : Int) && 0 ≤ p.2 && p.2 < (size : Int)

theorem isValidPosition_eq_inBounds (g : Grid) (p : Pos) :
    g.isValidPosition p.1 p.2 = inBounds g.size p := rfl

theorem Grid.setCell_size (g : Grid) (p : Pos) (c : Cell) : (g.setCell p c).size = g.size := rfl

theorem Grid.occupyCell_size (g : Grid) (r c n : Int) : (g.occupyCell r c n).size = g.size := by
  unfold Grid.occupyCell
  split <;> rfl

theorem Grid.releaseCell_size (g : Grid) (r c : Int) : (g.releaseCell r c).size = g.size := by
  unfold Grid.releaseCell
  split
  · rfl
  · split <;> rfl

theorem Grid.setPoint_size (g : Grid) (r c n : Int) : (g.setPoint r c n).size = g.size := by
  unfold Grid.setPoint
  split <;> rfl

theorem Grid.occupyCell_cells (g : Grid) (r c n : Int) (q : Pos) :
    (g.occupyCell r c n).cells q =
      if q = (r, c) ∧ g.isValidPosition r c = true
      then { g.cells q with occupied := true, pathNumber := some n }
      else g.cells q := by
  unfold Grid.occupyCell Grid.getCell
  by_cases hv : g.isValidPosition r c = true
  · simp only [hv, if_true, Grid.setCell]
    by_cases hq : q = (r, c) <;> simp [hq]
  · simp only [hv]
    simp [hv]

theorem Grid.releaseCell_cells (g : Grid) (r c : Int) (q : Pos) :
    (g.releaseCell r c).cells q =
      if q = (r, c) ∧ g.isValidPosition r c = true ∧ (g.cells (r, c)).isPoint = false
      then { g.cells q with occupied := false, pathNumber := none }
      else g.cells q := by
  unfold Grid.releaseCell Grid.getCell
  by_cases hv : g.isValidPosition r c = true
  · simp only [hv, if_true]
    by_cases hp : (g.cells (r, c)).isPoint = true
    · simp [hp]
    · simp only [Bool.not_eq_true] at hp
      simp only [hp, Bool.false_eq_true, if_false, Grid.setCell]
      by_cases hq : q = (r, c) <;> simp [hq, hp]
  · simp [hv]

theorem Grid.setPoint_cells (g : Grid) (r c n : Int) (q : Pos) :
    (g.setPoint r c n).cells q =
      if q = (r, c) ∧ g.isValidPosition r c = true
      then { g.cells q with isPoint := true, pointNumber := some n }
      else g.cells q := by
  unfold Grid.setPoint Grid.getCell
  by_cases hv : g.isValidPosition r c = true
  · simp only [hv, if_true, Grid.setCell]
    by_cases hq : q = (r, c) <;> simp [hq]
  · simp [hv]

theorem Grid.reset_cells (g : Grid) (q : Pos) :
    (g.reset).cells q = { g.cells q with occupied := false, pathNumber := none } := rfl

theorem Grid.reset_size (g : Grid) : (g.reset).size = g.size := rfl

/-- Releasing a list of cells, characterized pointwise. -/
def releaseList (g : Grid) (l : List Pos) : Grid :=
  l.foldl (fun g c => g.releaseCell c.1 c.2) g

theorem releaseList_size (g : Grid) (l : List Pos) : (releaseList g l).size = g.size := by
  induction l generalizing g with
  | nil => rfl
  | cons a l ih => simp only [releaseList, List.foldl_cons] at *; rw [ih, Grid.releaseCell_size]

theorem releaseList_cells (g : Grid) (l : List Pos) (q : Pos) :
    (releaseList g l).cells q =
      if q ∈ l ∧ inBounds g.size q = true ∧ (g.cells q).isPoint = false
      then { g.cells q with occupied := false, pathNumber := none }
      else g.cells q := by
  induction l generalizing g with
  | nil => simp [releaseList]
  | cons a l ih =>
    simp only [releaseList, List.foldl_cons] at *
    rw [ih]
    have hsz : (g.releaseCell a.1 a.2).size = g.size := Grid.releaseCell_size g a.1 a.2
    have hcell := Grid.releaseCell_cells g a.1 a.2 q
    have ha : ((a.1 : Int), (a.2 : Int)) = a := rfl
    by_cases hq : q = a
    · subst hq
      by_cases hv : inBounds g.size q = true
      · by_cases hp : (g.cells q).isPoint = false
        · have : (g.releaseCell q.1 q.2).cells q =
              { g.cells q with occupied := false, pathNumber := none } := by
            rw [hcell, if_pos ⟨ha.symm, by rw [isValidPosition_eq_inBounds]; exact hv, by rw [ha]; exact hp⟩]
          rw [this, hsz]
          by_cases hmem : q ∈ l <;> simp [hmem, hv, hp]
        · simp only [Bool.not_eq_false] at hp
          have : (g.releaseCell q.1 q.2).cells q = g.cells q := by
            rw [hcell]; rw [if_neg]; rintro ⟨-, -, h3⟩; rw [ha] at h3; rw [hp] at h3; exact absurd h3 (by simp)
          rw [this, hsz]
          simp [hp]
      · have : (g.releaseCell q.1 q.2).cells q = g.cells q := by
          rw [hcell]; rw [if_neg]; rintro ⟨-, h2, -⟩
          rw [isValidPosition_eq_inBounds] at h2; exact hv h2
        rw [this, hsz]
        simp [hv]
    · have hne : ¬ (q = ((a.1 : Int), (a.2 : Int))) := by rw [ha]; exact hq
      have h1 : (g.releaseCell a.1 a.2).cells q = g.cells q := by
        rw [hcell, if_neg]; rintro ⟨h, -⟩; exact hne h
      rw [hsz, h1]
      simp [hq]

theorem rebuildFromPathCells_size (g : Grid) (n : Int) (l : List Pos) :
    (g.rebuildFromPathCells n l).size = g.size := by
  induction l generalizing g with
  | nil => rfl
  | cons a l ih =>
    simp only [Grid.rebuildFromPathCells, List.foldl_cons] at *
    rw [ih, Grid.occupyCell_size]

theorem rebuildFromPathCells_cells (g : Grid) (n : Int) (l : List Pos) (q : Pos) :
    (g.rebuildFromPathCells n l).cells q =
      if q ∈ l ∧ inBounds g.size q = true
      then { g.cells q with occupied := true, pathNumber := some n }
      else g.cells q := by
  induction l generalizing g with
  | nil => simp [Grid.rebuildFromPathCells]
  | cons a l ih =>
    simp only [Grid.rebuildFromPathCells, List.foldl_cons] at *
    rw [ih]
    have hsz : (g.occupyCell a.1 a.2 n).size = g.size := Grid.occupyCell_size g a.1 a.2 n
    have hcell := Grid.occupyCell_cells g a.1 a.2 n q
    have ha : ((a.1 : Int), (a.2 : Int)) = a := rfl
    rw [ha] at hcell
    by_cases hq : q = a
    · subst hq
      by_cases hv : inBounds g.size q = true
      · have : (g.occupyCell q.1 q.2 n).cells q =
            { g.cells q with occupied := true, pathNumber := some n } := by
          rw [hcell, if_pos ⟨rfl, by rw [isValidPosition_eq_inBounds]; exact hv⟩]
        rw [hsz, this]
        by_cases hmem : q ∈ l <;> simp [hmem, hv]
      · have : (g.occupyCell q.1 q.2 n).cells q = g.cells q := by
          rw [hcell, if_neg]; rintro ⟨-, h2⟩
          rw [isValidPosition_eq_inBounds] at h2; exact hv h2
        rw [hsz, this]
        simp [hv]
    · have h1 : (g.occupyCell a.1 a.2 n).cells q = g.cells q := by
        rw [hcell, if_neg]; rintro ⟨h, -⟩; exact hq h
      rw [hsz, h1]
      simp [hq]

/-- Occupancy only ever grows under `occupyCell`. -/
theorem Grid.occupyCell_occupied_mono (g : Grid) (r c n : Int) (q : Pos)
    (h : (g.cells q).occupied = true) : ((g.occupyCell r c n).cells q).occupied = true := by
  rw [Grid.occupyCell_cells]
  split <;> simp [h]

theorem Grid.occupyCell_isPoint (g : Grid) (r c n : Int) (q : Pos) :
    ((g.occupyCell r c n).cells q).isPoint = (g.cells q).isPoint := by
  rw [Grid.occupyCell_cells]
  split <;> rfl

theorem releaseList_isPoint (g : Grid) (l : List Pos) (q : Pos) :
    ((releaseList g l).cells q).isPoint = (g.cells q).isPoint := by
  rw [releaseList_cells]
  split <;> rfl

/-- Rebuilding a grid from a list of paths (the loop of
`Grid.rebuildFromPaths`). -/
def rebuildAll (g : Grid) (paths : List PathObj) : Grid :=
  paths.foldl (fun g p => g.rebuildFromPathCells p.number p.cells) g

theorem rebuildAll_size (g : Grid) (paths : List PathObj) :
    (rebuildAll g paths).size = g.size := by
  induction paths generalizing g with
  | nil => rfl
  | cons p paths ih =>
    simp only [rebuildAll, List.foldl_cons] at *
    rw [ih, rebuildFromPathCells_size]

theorem rebuildFromPathCells_isPoint (g : Grid) (n : Int) (l : List Pos) (q : Pos) :
    ((g.rebuildFromPathCells n l).cells q).isPoint = (g.cells q).isPoint := by
  rw [rebuildFromPathCells_cells]
  split <;> rfl

theorem rebuildAll_isPoint (g : Grid) (paths : List PathObj) (q : Pos) :
    ((rebuildAll g paths).cells q).isPoint = (g.cells q).isPoint := by
  induction paths generalizing g with
  | nil => rfl
  | cons p paths ih =>
    simp only [rebuildAll, List.foldl_cons] at *
    rw [ih, rebuildFromPathCells_isPoint]

theorem rebuildFromPathCells_occupied_mono (g : Grid) (n : Int) (l : List Pos) (q : Pos)
    (h : (g.cells q).occupied = true) :
    ((g.rebuildFromPathCells n l).cells q).occupied = true := by
  rw [rebuildFromPathCells_cells]
  split <;> simp [h]

theorem rebuildAll_occupied_mono (g : Grid) (paths : List PathObj) (q : Pos)
    (h : (g.cells q).occupied = true) :
    ((rebuildAll g paths).cells q).occupied = true := by
  induction paths generalizing g with
  | nil => exact h
  | cons p paths ih =>
    simp only [rebuildAll, List.foldl_cons] at *
    exact ih _ (rebuildFromPathCells_occupied_mono g p.number p.cells q h)

theorem rebuildAll_occupied (g : Grid) (paths : List PathObj) (q : Pos) (p : PathObj)
    (hp : p ∈ paths) (hq : q ∈ p.cells) (hv : inBounds g.size q = true) :
    ((rebuildAll g paths).cells q).occupied = true := by
  induction paths generalizing g with
  | nil => cases hp
  | cons p0 paths ih =>
    simp only [rebuildAll, List.foldl_cons]
    rcases List.mem_cons.1 hp with h | h
    · subst h
      have hocc : ((g.rebuildFromPathCells p.number p.cells).cells q).occupied = true := by
        rw [rebuildFromPathCells_cells, if_pos ⟨hq, hv⟩]
      exact rebuildAll_occupied_mono _ paths q hocc
    · exact ih (g.rebuildFromPathCells p0.number p0.cells) h
        (by rw [rebuildFromPathCells_size]; exact hv)

theorem foldlSetPoint_size (pts : List Point) (g : Grid) :
    (pts.foldl (fun acc p => acc.setPoint p.row p.col p.number) g).size = g.size := by
  induction pts generalizing g with
  | nil => rfl
  | cons a pts ih => simp only [List.foldl_cons]; rw [ih, Grid.setPoint_size]

theorem Grid.setupPoints_size (g : Grid) (pts : List Point) :
    (g.setupPoints pts).size = g.size := foldlSetPoint_size pts _

theorem foldlSetPoint_isPoint (pts : List Point) (g : Grid) (q : Pos)
    (hb : ∀ p ∈ pts, inBounds g.size p.pos = true) :
    (((pts.foldl (fun acc p => acc.setPoint p.row p.col p.number) g).cells q).isPoint = true ↔
      (g.cells q).isPoint = true ∨ q ∈ pts.map Point.pos) := by
  induction pts generalizing g with
  | nil => simp
  | cons a pts ih =>
    simp only [List.foldl_cons]
    have hsz : (g.setPoint a.row a.col a.number).size = g.size := Grid.setPoint_size _ _ _ _
    have hb' : ∀ p ∈ pts, inBounds (g.setPoint a.row a.col a.number).size p.pos = true := by
      intro p hp; rw [hsz]; exact hb p (List.mem_cons_of_mem _ hp)
    rw [ih _ hb']
    have hcell := Grid.setPoint_cells g a.row a.col a.number q
    by_cases hq : q = (a.row, a.col)
    · have hvalid : g.isValidPosition a.row a.col = true := hb a (List.mem_cons_self a pts)
      rw [hcell, if_pos ⟨hq, hvalid⟩]
      simp [hq, Point.pos]
    · rw [hcell, if_neg (by rintro ⟨h, -⟩; exact hq h)]
      constructor
      · rintro (h | h)
        · exact Or.inl h
        · exact Or.inr (List.mem_cons_of_mem _ h)
      · rintro (h | h)
        · exact Or.inl h
        · rcases List.mem_cons.1 h with h' | h'
          · exact absurd (by rw [h']; rfl) hq
          · exact Or.inr h'

theorem Grid.setupPoints_isPoint (g : Grid) (pts : List Point) (q : Pos)
    (hb : ∀ p ∈ pts, inBounds g.size p.pos = true) :
    (((g.setupPoints pts).cells q).isPoint = true ↔ q ∈ pts.map Point.pos) := by
  unfold Grid.setupPoints
  rw [foldlSetPoint_isPoint pts _ q (by simpa using hb)]
  simp [Cell.fresh]

/-! ## The state invariant preserved by the stroke state machine -/

/-- The cells of every level point. -/
def pointCells (lvl : Level) : List Pos := lvl.points.map Point.pos

/-- The non-endpoint (interior) cells of a path. -/
def PathObj.interior (p : PathObj) : List Pos := p.cells.dropLast.drop 1

/-- A cell lies in the interior of some path of the list. -/
def inInteriors (paths : List PathObj) (c : Pos) : Prop := ∃ p ∈ paths, c ∈ p.interior

/-- The structural part of the committed-paths invariant (also required of
every history snapshot): interiors avoid all point cells, stay in bounds,
and are pairwise disjoint across paths. -/
def committedPure (lvl : Level) (paths : List PathObj) : Prop :=
  (∀ p ∈ paths, ∀ c ∈ p.interior, c ∉ pointCells lvl ∧ inBounds lvl.size c = true) ∧
  List.Pairwise (fun p q => ∀ c ∈ p.interior, c ∉ q.interior) paths

/-- The invariant on the active path: nonempty, duplicate-free, and every
cell after the start is a non-point in-bounds cell that is occupied on the
grid and avoids all committed interiors. -/
def ActiveOK (lvl : Level) (sys : Sys) : Prop :=
  match sys.gs.currentPath with
  | none => True
  | some p => p.cells ≠ [] ∧ p.cells.Nodup ∧
      ∀ c ∈ p.cells.drop 1, c ∉ pointCells lvl ∧ inBounds lvl.size c = true ∧
        (sys.grid.cells c).occupied = true ∧ ¬ inInteriors sys.gs.paths c

/-- A level is well formed when all its points lie within its bounds. -/
def WellFormedLevel (lvl : Level) : Prop :=
  ∀ p ∈ lvl.points, inBounds lvl.size p.pos = true

/-- The full reachability invariant. -/
def Inv (lvl : Level) (sys : Sys) : Prop :=
  sys.gs.points = lvl.points ∧
  sys.grid.size = lvl.size ∧
  (∀ q : Pos, ((sys.grid.cells q).isPoint = true ↔ q ∈ pointCells lvl)) ∧
  committedPure lvl sys.gs.paths ∧
  (∀ p ∈ sys.gs.paths, ∀ c ∈ p.interior, (sys.grid.cells c).occupied = true) ∧
  ActiveOK lvl sys ∧
  (∀ snap ∈ sys.gs.history, committedPure lvl snap.paths) ∧
  sys.gs.history.length ≤ maxHistory

/-- The invariant holds right after `loadLevel`. -/
theorem inv_load (lvl : Level) (hwf : WellFormedLevel lvl) : Inv lvl (Sys.loadLevel lvl) := by
  unfold Inv Sys.loadLevel GameState.load ActiveOK committedPure
  refine ⟨rfl, Grid.setupPoints_size _ _, ?_, ⟨by simp, by simp⟩, by simp, by simp,
    by simp, by simp [maxHistory]⟩
  intro q
  exact Grid.setupPoints_isPoint _ _ q (by intro p hp; exact hwf p hp)

/-! ## Output characterizations of the stroke operations -/

theorem tryStartPath_out (sys : Sys) (r c : Int) :
    (tryStartPath sys r c).2 = sys ∨
    ∃ pt, sys.grid.getPointAt r c = some pt ∧ sys.gs.currentPath = none ∧
      (tryStartPath sys r c).2 =
        ⟨sys.grid.occupyCell r c pt, sys.gs.startPath r c pt⟩ := by
  unfold tryStartPath
  rcases hg : sys.grid.getPointAt r c with _ | pt
  · exact Or.inl rfl
  · dsimp only
    by_cases h1 : pt ≠ sys.gs.currentNumber
    · rw [if_pos h1]; exact Or.inl rfl
    · rw [if_neg h1]
      rcases hcp : sys.gs.currentPath with _ | p
      · rw [if_neg (by simp)]
        exact Or.inr ⟨pt, rfl, rfl, rfl⟩
      · rw [if_pos (by simp)]
        exact Or.inl rfl

theorem cancelPath_out (sys : Sys) :
    cancelPath sys = sys ∨
    ∃ p, sys.gs.currentPath = some p ∧
      cancelPath sys = ⟨releaseList sys.grid (p.cells.drop 1), sys.gs.cancelPath⟩ := by
  unfold cancelPath
  rcases hcp : sys.gs.currentPath with _ | p
  · exact Or.inl rfl
  · dsimp only
    exact Or.inr ⟨p, rfl, rfl⟩

theorem sysUndo_out (sys : Sys) :
    (sysUndo sys).2 = sys ∨
    ∃ snap, sys.gs.history.getLast? = some snap ∧
      (sysUndo sys).2 =
        ⟨rebuildAll ((sys.grid.reset).setupPoints sys.gs.points) snap.paths,
         { sys.gs with paths := snap.paths, occupiedCells := snap.occupiedCells,
                       currentNumber := snap.currentNumber,
                       connectedPoints := snap.connectedPoints,
                       currentPath := none, history := sys.gs.history.dropLast }⟩ := by
  unfold sysUndo GameState.undo GameState.canUndo
  rcases hl : sys.gs.history.getLast? with _ | snap
  · have h0 : sys.gs.history = [] := List.getLast?_eq_none_iff.1 hl
    rw [if_pos (by simp [h0])]
    exact Or.inl rfl
  · have hne : sys.gs.history ≠ [] := by
      intro h; rw [h] at hl; simp at hl
    rw [if_neg (by simp [List.length_pos_iff_ne_nil, hne])]
    exact Or.inr ⟨snap, rfl, rfl⟩

theorem findInCurrentPath_none_notMem (sys : Sys) (r c : Int) (p : PathObj)
    (hcp : sys.gs.currentPath = some p)
    (hfind : sys.gs.findInCurrentPath r c = none) : (r, c) ∉ p.cells := by
  unfold GameState.findInCurrentPath at hfind
  rw [hcp] at hfind
  intro hmem
  have := List.findIdx?_eq_none_iff.1 hfind _ hmem
  simp at this

theorem tryExtendPath_out (sys : Sys) (r c : Int) :
    (tryExtendPath sys r c).2 = sys ∨
    (∃ p i, sys.gs.currentPath = some p ∧ sys.gs.findInCurrentPath r c = some i ∧
      (tryExtendPath sys r c).2 =
        ⟨releaseList sys.grid (p.cells.drop (i + 1)), sys.gs.truncatePath i⟩) ∨
    (∃ p cell, sys.gs.currentPath = some p ∧ sys.grid.getCell r c = some cell ∧
      sys.gs.findInCurrentPath r c = none ∧
      (tryExtendPath sys r c).2 =
        ⟨sys.grid.occupyCell r c (sys.gs.currentNumber + 1 - 1), sys.gs.completePath r c⟩) ∨
    (∃ p cell, sys.gs.currentPath = some p ∧ sys.grid.getCell r c = some cell ∧
      sys.gs.findInCurrentPath r c = none ∧
      cell.occupied = false ∧ cell.isPoint = false ∧
      (tryExtendPath sys r c).2 =
        ⟨sys.grid.occupyCell r c p.number, sys.gs.extendPath r c⟩) := by
  unfold tryExtendPath
  rcases hcp : sys.gs.currentPath with _ | p
  · exact Or.inl rfl
  · dsimp only
    rcases hend : sys.gs.getCurrentPathEnd with _ | pathEnd
    · exact Or.inl rfl
    · dsimp only
      by_cases hsame : posEquals pathEnd (r, c) = true
      · rw [if_pos hsame]; exact Or.inl rfl
      · rw [if_neg hsame]
        by_cases hadj : areAdjacent pathEnd (r, c) = true
        · rw [if_neg (by simpa using hadj)]
          rcases hfind : sys.gs.findInCurrentPath r c with _ | i
          · dsimp only
            rcases hcell : sys.grid.getCell r c with _ | cell
            · exact Or.inl rfl
            · dsimp only
              by_cases htgt : cell.isPoint = true ∧
                  cell.pointNumber = some (sys.gs.currentNumber + 1)
              · rw [if_pos htgt]
                exact Or.inr (Or.inr (Or.inl ⟨p, cell, rfl, rfl, rfl, rfl⟩))
              · rw [if_neg htgt]
                by_cases hocc : cell.occupied = true ∨
                    (cell.isPoint = true ∧ cell.pointNumber ≠ some (sys.gs.currentNumber + 1))
                · rw [if_pos hocc]
                  exact Or.inl rfl
                · rw [if_neg hocc]
                  refine Or.inr (Or.inr (Or.inr ⟨p, cell, rfl, rfl, rfl, ?_, ?_, rfl⟩))
                  · by_cases h1 : cell.occupied = true
                    · exact absurd (Or.inl h1) hocc
                    · simpa using h1
                  · by_cases h2 : cell.isPoint = true
                    · by_cases h3 : cell.pointNumber = some (sys.gs.currentNumber + 1)
                      · exact absurd ⟨h2, h3⟩ htgt
                      · exact absurd (Or.inr ⟨h2, h3⟩) hocc
                    · simpa using h2
          · dsimp only
            exact Or.inr (Or.inl ⟨p, i, rfl, rfl, rfl⟩)
        · rw [if_pos (by simpa using hadj)]
          exact Or.inl rfl

/-! ## Invariant preservation -/

theorem Grid.getCell_some (g : Grid) (r c : Int) (cell : Cell)
    (h : g.getCell r c = some cell) :
    g.isValidPosition r c = true ∧ cell = g.cells (r, c) := by
  unfold Grid.getCell at h
  by_cases hv : g.isValidPosition r c = true
  · rw [if_pos hv] at h
    exact ⟨hv, (Option.some_injective _ h).symm⟩
  · rw [if_neg hv] at h
    cases h

theorem Grid.occupyCell_self (g : Grid) (r c n : Int) (hv : g.isValidPosition r c = true) :
    ((g.occupyCell r c n).cells (r, c)).occupied = true := by
  rw [Grid.occupyCell_cells, if_pos ⟨rfl, hv⟩]

theorem interior_subset_cells (p : PathObj) : p.interior ⊆ p.cells := by
  intro c hc
  exact List.dropLast_subset _ (List.drop_subset _ _ hc)

theorem mem_drop_one_of_mem_drop (l : List Pos) (i : Nat) (c : Pos)
    (h : c ∈ l.drop (i + 1)) : c ∈ l.drop 1 := by
  have : l.drop (i + 1) = (l.drop 1).drop i := by
    rw [List.drop_drop, Nat.add_comm]
  rw [this] at h
  exact List.drop_subset _ _ h

theorem inv_start (lvl : Level) (sys : Sys) (hinv : Inv lvl sys) (r c pt : Int) :
    Inv lvl ⟨sys.grid.occupyCell r c pt, sys.gs.startPath r c pt⟩ := by
  obtain ⟨h1, h2, h3, h4, h5, h6, h7, h8⟩ := hinv
  refine ⟨h1, ?_, ?_, h4, ?_, ?_, h7, h8⟩
  · rw [Grid.occupyCell_size]; exact h2
  · intro q; rw [Grid.occupyCell_isPoint]; exact h3 q
  · intro q hq cc hcc
    exact Grid.occupyCell_occupied_mono _ _ _ _ _ (h5 q hq cc hcc)
  · unfold ActiveOK GameState.startPath
    exact ⟨by simp, by simp, by simp⟩

theorem inv_cancel (lvl : Level) (sys : Sys) (hinv : Inv lvl sys) (p : PathObj)
    (hcp : sys.gs.currentPath = some p) :
    Inv lvl ⟨releaseList sys.grid (p.cells.drop 1), sys.gs.cancelPath⟩ := by
  obtain ⟨h1, h2, h3, h4, h5, h6, h7, h8⟩ := hinv
  unfold ActiveOK at h6
  rw [hcp] at h6
  obtain ⟨hne, hnd, htail⟩ := h6
  have hgs : sys.gs.cancelPath =
      { sys.gs with
        currentPath := none,
        occupiedCells := (p.cells.drop 1).foldl (fun acc c => acc.erase c) sys.gs.occupiedCells } := by
    unfold GameState.cancelPath
    rw [hcp]
  rw [hgs]
  refine ⟨h1, ?_, ?_, h4, ?_, ?_, h7, h8⟩
  · rw [releaseList_size]; exact h2
  · intro q; rw [releaseList_isPoint]; exact h3 q
  · intro q hq cc hcc
    have hnotin : cc ∉ p.cells.drop 1 := by
      intro hmem
      exact (htail cc hmem).2.2.2 ⟨q, hq, hcc⟩
    rw [releaseList_cells, if_neg (by rintro ⟨hm, -⟩; exact hnotin hm)]
    exact h5 q hq cc hcc
  · unfold ActiveOK
    exact trivial

theorem inv_truncate (lvl : Level) (sys : Sys) (hinv : Inv lvl sys) (p : PathObj) (i : Nat)
    (hcp : sys.gs.currentPath = some p) :
    Inv lvl ⟨releaseList sys.grid (p.cells.drop (i + 1)), sys.gs.truncatePath i⟩ := by
  obtain ⟨h1, h2, h3, h4, h5, h6, h7, h8⟩ := hinv
  unfold ActiveOK at h6
  rw [hcp] at h6
  obtain ⟨hne, hnd, htail⟩ := h6
  have hgs : sys.gs.truncatePath i =
      { sys.gs with
        currentPath := some { p with cells := p.cells.take (i + 1) },
        occupiedCells := (p.cells.drop (i + 1)).foldl (fun acc c => acc.erase c)
          sys.gs.occupiedCells } := by
    unfold GameState.truncatePath
    rw [hcp]
  rw [hgs]
  have hdropped : ∀ cc ∈ p.cells.drop (i + 1), cc ∉ pointCells lvl ∧
      inBounds lvl.size cc = true ∧ (sys.grid.cells cc).occupied = true ∧
      ¬ inInteriors sys.gs.paths cc := by
    intro cc hcc
    exact htail cc (mem_drop_one_of_mem_drop _ i cc hcc)
  refine ⟨h1, ?_, ?_, h4, ?_, ?_, h7, h8⟩
  · rw [releaseList_size]; exact h2
  · intro q; rw [releaseList_isPoint]; exact h3 q
  · intro q hq cc hcc
    have hnotin : cc ∉ p.cells.drop (i + 1) := by
      intro hmem
      exact (hdropped cc hmem).2.2.2 ⟨q, hq, hcc⟩
    rw [releaseList_cells, if_neg (by rintro ⟨hm, -⟩; exact hnotin hm)]
    exact h5 q hq cc hcc
  · unfold ActiveOK
    dsimp only
    refine ⟨?_, ?_, ?_⟩
    · rw [Ne, List.take_eq_nil_iff]
      rintro (h | h)
      · cases h
      · exact hne h
    · exact hnd.sublist (List.take_sublist _ _)
    · intro cc hcc
      have hmemtail : cc ∈ p.cells.drop 1 := by
        have hsub : (p.cells.take (i + 1)).drop 1 = (p.cells.drop 1).take i := by
          rw [List.drop_take, Nat.add_sub_cancel]
        rw [hsub] at hcc
        exact List.take_subset _ _ hcc
      obtain ⟨hp1, hp2, hp3, hp4⟩ := htail cc hmemtail
      have hnotdropped : cc ∉ p.cells.drop (i + 1) := by
        intro hmem
        have hd : List.Disjoint (p.cells.take (i + 1)) (p.cells.drop (i + 1)) :=
          List.disjoint_take_drop hnd le_rfl
        exact hd (List.drop_subset _ _ hcc) hmem
      refine ⟨hp1, hp2, ?_, hp4⟩
      rw [releaseList_cells, if_neg (by rintro ⟨hm, -⟩; exact hnotdropped hm)]
      exact hp3

theorem inv_extend (lvl : Level) (sys : Sys) (hinv : Inv lvl sys) (p : PathObj) (cell : Cell)
    (r c : Int) (hcp : sys.gs.currentPath = some p)
    (hcell : sys.grid.getCell r c = some cell)
    (hocc : cell.occupied = false) (hpt : cell.isPoint = false)
    (hnotin : (r, c) ∉ p.cells) (n : Int) :
    Inv lvl ⟨sys.grid.occupyCell r c n, sys.gs.extendPath r c⟩ := by
  obtain ⟨h1, h2, h3, h4, h5, h6, h7, h8⟩ := hinv
  unfold ActiveOK at h6
  rw [hcp] at h6
  obtain ⟨hne, hnd, htail⟩ := h6
  obtain ⟨hvalid, hcelldef⟩ := Grid.getCell_some _ _ _ _ hcell
  have hgs : sys.gs.extendPath r c =
      { sys.gs with
        currentPath := some { p with cells := p.cells ++ [(r, c)] },
        occupiedCells := insert (r, c) sys.gs.occupiedCells } := by
    unfold GameState.extendPath
    rw [hcp]
  rw [hgs]
  refine ⟨h1, ?_, ?_, h4, ?_, ?_, h7, h8⟩
  · rw [Grid.occupyCell_size]; exact h2
  · intro q; rw [Grid.occupyCell_isPoint]; exact h3 q
  · intro q hq cc hcc
    exact Grid.occupyCell_occupied_mono _ _ _ _ _ (h5 q hq cc hcc)
  · unfold ActiveOK
    dsimp only
    refine ⟨by simp, ?_, ?_⟩
    · rw [List.nodup_append]
      exact ⟨hnd, List.nodup_singleton _, by
        intro x hx hmem
        rw [List.mem_singleton] at hmem
        subst hmem
        exact hnotin hx⟩
    · intro cc hcc
      rw [List.drop_append_of_le_length (by
        have := List.length_pos_of_ne_nil hne
        omega)] at hcc
      rcases List.mem_append.1 hcc with hold | hnew
      · obtain ⟨hp1, hp2, hp3, hp4⟩ := htail cc hold
        exact ⟨hp1, hp2, Grid.occupyCell_occupied_mono _ _ _ _ _ hp3, hp4⟩
      · rw [List.mem_singleton] at hnew
        subst hnew
        refine ⟨?_, ?_, ?_, ?_⟩
        · intro hmem
          have := (h3 (r, c)).2 hmem
          rw [← hcelldef, hpt] at this
          cases this
        · rw [← h2, ← isValidPosition_eq_inBounds]
          exact hvalid
        · exact Grid.occupyCell_self _ _ _ _ hvalid
        · rintro ⟨q, hq, hqc⟩
          have := h5 q hq _ hqc
          rw [← hcelldef, hocc] at this
          cases this

theorem inv_complete (lvl : Level) (sys : Sys) (hinv : Inv lvl sys) (p : PathObj)
    (r c n : Int) (hcp : sys.gs.currentPath = some p) :
    Inv lvl ⟨sys.grid.occupyCell r c n, sys.gs.completePath r c⟩ := by
  obtain ⟨h1, h2, h3, h4, h5, h6, h7, h8⟩ := hinv
  unfold ActiveOK at h6
  rw [hcp] at h6
  obtain ⟨hne, hnd, htail⟩ := h6
  have hP : PathObj.interior { number := p.number, cells := p.cells ++ [(r, c)] } =
      p.cells.drop 1 := by
    unfold PathObj.interior
    dsimp only
    rw [List.dropLast_concat]
  have hsplit : ∀ mot : GameState → Prop,
      (∀ b : Bool, mot
        { sys.gs with
          paths := sys.gs.paths ++ [{ number := p.number, cells := p.cells ++ [(r, c)] }],
          connectedPoints := insert (p.number + 1) (insert p.number sys.gs.connectedPoints),
          currentNumber := p.number + 1,
          currentPath := none,
          occupiedCells := insert (r, c) sys.gs.occupiedCells,
          isComplete := b,
          history :=
            if (sys.gs.history ++
                [(⟨sys.gs.paths, insert (r, c) sys.gs.occupiedCells, sys.gs.currentNumber,
                  sys.gs.connectedPoints⟩ : Snapshot)]).length > maxHistory
            then (sys.gs.history ++
                [(⟨sys.gs.paths, insert (r, c) sys.gs.occupiedCells, sys.gs.currentNumber,
                  sys.gs.connectedPoints⟩ : Snapshot)]).drop 1
            else sys.gs.history ++
                [(⟨sys.gs.paths, insert (r, c) sys.gs.occupiedCells, sys.gs.currentNumber,
                  sys.gs.connectedPoints⟩ : Snapshot)] }) →
      mot (sys.gs.completePath r c) := by
    intro mot hb
    unfold GameState.completePath GameState.saveSnapshot
    rw [hcp]
    dsimp only
    split
    · exact hb true
    · exact hb sys.gs.isComplete
  refine hsplit (fun gs' => Inv lvl ⟨sys.grid.occupyCell r c n, gs'⟩) ?_
  intro b
  refine ⟨h1, ?_, ?_, ?_, ?_, ?_, ?_, ?_⟩
  · rw [Grid.occupyCell_size]; exact h2
  · intro q; rw [Grid.occupyCell_isPoint]; exact h3 q
  · constructor
    · intro q hq cc hcc
      rcases List.mem_append.1 hq with hold | hnew
      · exact h4.1 q hold cc hcc
      · rw [List.mem_singleton] at hnew
        subst hnew
        rw [hP] at hcc
        exact ⟨(htail cc hcc).1, (htail cc hcc).2.1⟩
    · refine List.pairwise_append.2 ⟨h4.2, List.pairwise_singleton _ _, ?_⟩
      intro a ha b' hb' cc hcca hccb
      rw [List.mem_singleton] at hb'
      subst hb'
      rw [hP] at hccb
      exact (htail cc hccb).2.2.2 ⟨a, ha, hcca⟩
  · intro q hq cc hcc
    rcases List.mem_append.1 hq with hold | hnew
    · exact Grid.occupyCell_occupied_mono _ _ _ _ _ (h5 q hold cc hcc)
    · rw [List.mem_singleton] at hnew
      subst hnew
      rw [hP] at hcc
      exact Grid.occupyCell_occupied_mono _ _ _ _ _ (htail cc hcc).2.2.1
  · unfold ActiveOK
    exact trivial
  · intro sn hsn
    dsimp only at hsn
    have hsn' : sn ∈ sys.gs.history ++
        [(⟨sys.gs.paths, insert (r, c) sys.gs.occupiedCells, sys.gs.currentNumber,
          sys.gs.connectedPoints⟩ : Snapshot)] := by
      revert hsn
      split
      · intro hsn; exact List.drop_subset _ _ hsn
      · intro hsn; exact hsn
    rcases List.mem_append.1 hsn' with hold | hnew
    · exact h7 sn hold
    · rw [List.mem_singleton] at hnew
      subst hnew
      exact h4
  · dsimp only
    split <;> rename_i hlen
    · simp only [List.length_drop, List.length_append, List.length_singleton]
      omega
    · simp only [not_lt, List.length_append, List.length_singleton] at hlen
      simp only [List.length_append, List.length_singleton]
      omega

theorem inv_undo (lvl : Level) (sys : Sys) (hwf : WellFormedLevel lvl) (hinv : Inv lvl sys)
    (snap : Snapshot) (hsnap : sys.gs.history.getLast? = some snap) :
    Inv lvl ⟨rebuildAll ((sys.grid.reset).setupPoints sys.gs.points) snap.paths,
      { sys.gs with
        paths := snap.paths, occupiedCells := snap.occupiedCells,
        currentNumber := snap.currentNumber, connectedPoints := snap.connectedPoints,
        currentPath := none, history := sys.gs.history.dropLast }⟩ := by
  obtain ⟨h1, h2, h3, h4, h5, h6, h7, h8⟩ := hinv
  have hsnapmem : snap ∈ sys.gs.history := by
    obtain ⟨hne', heq⟩ := List.mem_getLast?_eq_getLast (Option.mem_def.2 hsnap)
    rw [heq]
    exact List.getLast_mem hne'
  have hpure : committedPure lvl snap.paths := h7 snap hsnapmem
  have hszg : ((sys.grid.reset).setupPoints sys.gs.points).size = lvl.size := by
    rw [Grid.setupPoints_size, Grid.reset_size]
    exact h2
  have hbounds : ∀ q ∈ sys.gs.points, inBounds (sys.grid.reset).size q.pos = true := by
    intro q hq
    rw [Grid.reset_size, h2]
    exact hwf q (h1 ▸ hq)
  refine ⟨h1, ?_, ?_, hpure, ?_, ?_, ?_, ?_⟩
  · rw [rebuildAll_size]
    exact hszg
  · intro q
    rw [rebuildAll_isPoint]
    rw [Grid.setupPoints_isPoint _ _ q hbounds]
    unfold pointCells
    rw [h1]
  · intro q hq cc hcc
    refine rebuildAll_occupied _ _ cc q hq (interior_subset_cells q hcc) ?_
    rw [hszg]
    exact (hpure.1 q hq cc hcc).2
  · unfold ActiveOK
    exact trivial
  · intro sn hsn
    exact h7 sn (List.dropLast_subset _ hsn)
  · have : sys.gs.history.dropLast.length ≤ sys.gs.history.length := by
      rw [List.length_dropLast]; omega
    exact le_trans this h8

/-- Every state reachable by the stroke operations from a freshly loaded
well-formed level satisfies the full invariant. -/
theorem reachable_inv (lvl : Level) (hwf : WellFormedLevel lvl) :
    ∀ sys, Reachable lvl sys → Inv lvl sys := by
  intro sys h
  induction h with
  | load => exact inv_load lvl hwf
  | start r c h ih =>
    rcases tryStartPath_out _ r c with heq | ⟨pt, hg, hcp, heq⟩ <;> rw [heq]
    · exact ih
    · exact inv_start lvl _ ih r c pt
  | extend r c h ih =>
    rcases tryExtendPath_out _ r c with heq |
      ⟨p, i, hcp, hfind, heq⟩ | ⟨p, cell, hcp, hcell, hfind, heq⟩ |
      ⟨p, cell, hcp, hcell, hfind, hocc, hpt, heq⟩ <;> rw [heq]
    · exact ih
    · exact inv_truncate lvl _ ih p i hcp
    · exact inv_complete lvl _ ih p r c _ hcp
    · exact inv_extend lvl _ ih p cell r c hcp hcell hocc hpt
        (findInCurrentPath_none_notMem _ r c p hcp hfind) _
  | cancel h ih =>
    rcases cancelPath_out _ with heq | ⟨p, hcp, heq⟩ <;> rw [heq]
    · exact ih
    · exact inv_cancel lvl _ ih p hcp
  | undo h ih =>
    rcases sysUndo_out _ with heq | ⟨snap, hsnap, heq⟩ <;> rw [heq]
    · exact ih
    · exact inv_undo lvl _ hwf ih snap hsnap

/-! ## Claim C3: disjointness of committed path interiors -/

/-- A 3×3 level whose obstacle `(0,1)` sits directly between its two
points. -/
def lvlC3 : Level :=
  { size := 3, points := [⟨1, 0, 0⟩, ⟨2, 0, 2⟩], obstacles := [(0, 1)], solution := [] }

def sysC3 : Sys :=
  (tryExtendPath (tryExtendPath (tryStartPath (Sys.loadLevel lvlC3) 0 0).2 0 1).2 0 2).2

/-- C3, counterexample. The interactive grid ignores obstacles entirely, so
the player can draw straight through the obstacle cell `(0,1)` of `lvlC3` and
commit the path `(0,0)-(0,1)-(0,2)`: the committed path's non-endpoint cell
`(0,1)` is an obstacle cell, refuting the obstacle-disjointness conjunct of
the claim on a reachable state. -/
theorem c3_obstacle_disjointness_counterexample :
    Reachable lvlC3 sysC3 ∧
    sysC3.gs.paths = [⟨1, [(0, 0), (0, 1), (0, 2)]⟩] ∧
    (0, 1) ∈ PathObj.interior ⟨1, [(0, 0), (0, 1), (0, 2)]⟩ ∧
    (0, 1) ∈ lvlC3.obstacles :=
  ⟨Reachable.extend 0 2 (Reachable.extend 0 1 (Reachable.start 0 0 Reachable.load)),
   by decide, by decide, by decide⟩

/-- C3, amended (the obstacle-disjointness conjunct is dropped — the
interactive grid does not track obstacles, see the counterexample): in every
state reachable by `tryStart`/`tryExtend`/`cancel`/`undo` from a freshly
loaded well-formed level, the non-endpoint (interior) cells of the committed
paths are pairwise disjoint across paths and avoid every point's cell — in
particular they meet no point cell other than the path's own endpoints. -/
theorem c3_committed_interiors_invariant (lvl : Level) (sys : Sys)
    (hwf : WellFormedLevel lvl) (h : Reachable lvl sys) :
    List.Pairwise (fun p q => ∀ c ∈ p.interior, c ∉ q.interior) sys.gs.paths ∧
    (∀ p ∈ sys.gs.paths, ∀ c ∈ p.interior, c ∉ pointCells lvl) := by
  obtain ⟨-, -, -, hpure, -, -, -, -⟩ := reachable_inv lvl hwf sys h
  exact ⟨hpure.2, fun p hp c hc => (hpure.1 p hp c hc).1⟩

/-- C3 witness: the amended invariant instantiated on the concrete reachable
state `sysC3`, whose single committed path has interior `[(0,1)]`. -/
theorem c3_committed_interiors_invariant_witness :
    List.Pairwise (fun p q => ∀ c ∈ p.interior, c ∉ q.interior) sysC3.gs.paths ∧
    (∀ p ∈ sysC3.gs.paths, ∀ c ∈ p.interior, c ∉ pointCells lvlC3) :=
  c3_committed_interiors_invariant lvlC3 sysC3 (by unfold WellFormedLevel; decide)
    (Reachable.extend 0 2 (Reachable.extend 0 1 (Reachable.start 0 0 Reachable.load)))

/-! ## Claim C8: backtracking truncates and releases exactly the tail -/

theorem tryExtendPath_backtrack_eq (sys : Sys) (row col : Int) (p : PathObj) (e : Pos) (i : Nat)
    (hcp : sys.gs.currentPath = some p)
    (he : sys.gs.getCurrentPathEnd = some e)
    (hne : posEquals e (row, col) = false)
    (hadj : areAdjacent e (row, col) = true)
    (hfind : sys.gs.findInCurrentPath row col = some i) :
    tryExtendPath sys row col =
      ({ success := true, backtracked := true },
       ⟨releaseList sys.grid (p.cells.drop (i + 1)), sys.gs.truncatePath i⟩) := by
  unfold tryExtendPath
  rw [hcp]
  dsimp only
  rw [he]
  dsimp only
  rw [if_neg (by simp [hne]), if_neg (by simp [hadj]), hfind]
  rfl

theorem foldl_erase_eq_sdiff (s : Finset Pos) (l : List Pos) :
    l.foldl (fun acc c => acc.erase c) s = s \ l.toFinset := by
  induction l generalizing s with
  | nil => simp
  | cons a l ih =>
    rw [List.foldl_cons, ih, List.toFinset_cons, Finset.erase_eq, sdiff_sdiff,
      Finset.insert_eq, Finset.sup_eq_union]

/-- C8: in a reachable state with an active path, extending onto a cell that
is 4-adjacent to the path's end, differs from it, and already occurs at an
earlier index `i` of the active path succeeds flagged `backtracked`; the
active path is truncated to index `i`, the occupied-cell set loses exactly
the dropped cells, the grid occupancy of every dropped cell is cleared, every
other grid cell (in particular the whole kept prefix) is untouched, and the
committed paths are unchanged. -/
theorem c8_backtrack_releases_tail (lvl : Level) (sys : Sys) (hwf : WellFormedLevel lvl)
    (hreach : Reachable lvl sys) (p : PathObj) (e : Pos) (row col : Int) (i : Nat)
    (hcp : sys.gs.currentPath = some p)
    (he : sys.gs.getCurrentPathEnd = some e)
    (hne : posEquals e (row, col) = false)
    (hadj : areAdjacent e (row, col) = true)
    (hfind : sys.gs.findInCurrentPath row col = some i) :
    (tryExtendPath sys row col).1 = { success := true, backtracked := true } ∧
    (tryExtendPath sys row col).2.gs.currentPath =
      some { p with cells := p.cells.take (i + 1) } ∧
    (tryExtendPath sys row col).2.gs.occupiedCells =
      sys.gs.occupiedCells \ (p.cells.drop (i + 1)).toFinset ∧
    (∀ cc ∈ p.cells.drop (i + 1),
      ((tryExtendPath sys row col).2.grid.cells cc).occupied = false) ∧
    (∀ q : Pos, q ∉ p.cells.drop (i + 1) →
      (tryExtendPath sys row col).2.grid.cells q = sys.grid.cells q) ∧
    (tryExtendPath sys row col).2.gs.paths = sys.gs.paths := by
  obtain ⟨h1, h2, h3, h4, h5, h6, h7, h8⟩ := reachable_inv lvl hwf sys hreach
  unfold ActiveOK at h6
  rw [hcp] at h6
  obtain ⟨hpne, hnd, htail⟩ := h6
  rw [tryExtendPath_backtrack_eq sys row col p e i hcp he hne hadj hfind]
  have hgs : sys.gs.truncatePath i =
      { sys.gs with
        currentPath := some { p with cells := p.cells.take (i + 1) },
        occupiedCells := (p.cells.drop (i + 1)).foldl (fun acc c => acc.erase c)
          sys.gs.occupiedCells } := by
    unfold GameState.truncatePath
    rw [hcp]
  refine ⟨rfl, ?_, ?_, ?_, ?_, ?_⟩
  · rw [hgs]
  · rw [hgs]
    exact foldl_erase_eq_sdiff _ _
  · intro cc hcc
    have htl := htail cc (mem_drop_one_of_mem_drop _ i cc hcc)
    rw [releaseList_cells, if_pos ⟨hcc, by rw [h2]; exact htl.2.1, by
      rcases hb : (sys.grid.cells cc).isPoint with _ | _
      · rfl
      · exact absurd ((h3 cc).1 hb) htl.1⟩]
  · intro q hq
    rw [releaseList_cells, if_neg (by rintro ⟨hm, -⟩; exact hq hm)]
  · rw [hgs]

def sysC8 : Sys := (tryExtendPath sysC1a 1 0).2

/-- C8 witness: on `lvlC1`, after drawing `(0,0)-(1,0)` the extend back onto
`(0,0)` (index 0 of the active path) backtracks, truncating to `[(0,0)]` and
releasing exactly `(1,0)`. -/
theorem c8_backtrack_releases_tail_witness :
    (tryExtendPath sysC8 0 0).1 = { success := true, backtracked := true } ∧
    (tryExtendPath sysC8 0 0).2.gs.currentPath =
      some { number := 1, cells := [((0 : Int), (0 : Int)), (1, 0)].take 1 } ∧
    (tryExtendPath sysC8 0 0).2.gs.occupiedCells =
      sysC8.gs.occupiedCells \ ([((0 : Int), (0 : Int)), (1, 0)].drop 1).toFinset ∧
    (∀ cc ∈ [((0 : Int), (0 : Int)), (1, 0)].drop 1,
      ((tryExtendPath sysC8 0 0).2.grid.cells cc).occupied = false) ∧
    (∀ q : Pos, q ∉ [((0 : Int), (0 : Int)), (1, 0)].drop 1 →
      (tryExtendPath sysC8 0 0).2.grid.cells q = sysC8.grid.cells q) ∧
    (tryExtendPath sysC8 0 0).2.gs.paths = sysC8.gs.paths :=
  c8_backtrack_releases_tail lvlC1 sysC8 (by unfold WellFormedLevel; decide)
    (Reachable.extend 1 0 (Reachable.start 0 0 Reachable.load))
    ⟨1, [(0, 0), (1, 0)]⟩ (1, 0) 0 0 0
    (by decide) (by decide) (by decide) (by decide) (by decide)

/-! ## Claim C9: the undo history is a bounded LIFO stack -/

/-- The snapshot `saveSnapshot` records for a state. -/
def snapOf (s : GameState) : Snapshot :=
  ⟨s.paths, s.occupiedCells, s.currentNumber, s.connectedPoints⟩

theorem saveSnapshot_history_small (s : GameState) (h : s.history.length < maxHistory) :
    (s.saveSnapshot).history = s.history ++ [snapOf s] := by
  unfold GameState.saveSnapshot snapOf
  dsimp only
  rw [if_neg (by simp only [List.length_append, List.length_singleton]; omega)]

theorem saveSnapshot_history_full (s : GameState) (h : s.history.length = maxHistory) :
    (s.saveSnapshot).history = s.history.drop 1 ++ [snapOf s] := by
  unfold GameState.saveSnapshot snapOf
  dsimp only
  rw [if_pos (by simp only [List.length_append, List.length_singleton]; omega)]
  rcases hh : s.history with _ | ⟨y, t⟩
  · rw [hh] at h; simp [maxHistory] at h
  · simp

theorem undo_pops_newest (s : GameState) (snap : Snapshot)
    (h : s.history.getLast? = some snap) :
    s.undo = (true,
      { s with
        paths := snap.paths, occupiedCells := snap.occupiedCells,
        currentNumber := snap.currentNumber, connectedPoints := snap.connectedPoints,
        currentPath := none, history := s.history.dropLast }) := by
  unfold GameState.undo
  rw [h]

theorem completePath_history_length (s : GameState) (p : PathObj) (r c : Int)
    (hcp : s.currentPath = some p) (hlen : s.history.length ≤ maxHistory) :
    (s.completePath r c).history.length = min (s.history.length + 1) maxHistory := by
  unfold GameState.completePath GameState.saveSnapshot
  rw [hcp]
  dsimp only
  split <;>
  · split <;> rename_i hl <;>
      simp only [List.length_drop, List.length_append, List.length_singleton] <;>
      simp only [List.length_append, List.length_singleton] at hl <;>
      omega

/-- C9: the undo history is a bounded LIFO stack of snapshots.  (1) In every
reachable state of a well-formed level it holds at most `maxHistory = 50`
snapshots; (2) below capacity, a push appends the snapshot on top; (3) at
capacity, a push drops the oldest (bottom) snapshot and keeps the new one on
top; (4) `undo` pops exactly the most recent snapshot and restores its
fields; (5) a commit (`completePath` on an active path) pushes exactly one
snapshot, clamped at capacity. -/
theorem c9_history_bounded_lifo_stack :
    (∀ lvl sys, WellFormedLevel lvl → Reachable lvl sys →
      sys.gs.history.length ≤ maxHistory) ∧
    (∀ s : GameState, s.history.length < maxHistory →
      (s.saveSnapshot).history = s.history ++ [snapOf s]) ∧
    (∀ s : GameState, s.history.length = maxHistory →
      (s.saveSnapshot).history = s.history.drop 1 ++ [snapOf s]) ∧
    (∀ (s : GameState) (snap : Snapshot), s.history.getLast? = some snap →
      s.undo = (true,
        { s with
          paths := snap.paths, occupiedCells := snap.occupiedCells,
          currentNumber := snap.currentNumber, connectedPoints := snap.connectedPoints,
          currentPath := none, history := s.history.dropLast })) ∧
    (∀ (s : GameState) (p : PathObj) (r c : Int), s.currentPath = some p →
      s.history.length ≤ maxHistory →
      (s.completePath r c).history.length = min (s.history.length + 1) maxHistory) := by
  refine ⟨?_, saveSnapshot_history_small, saveSnapshot_history_full, undo_pops_newest,
    fun s p r c hcp hlen => completePath_history_length s p r c hcp hlen⟩
  intro lvl sys hwf hreach
  exact (reachable_inv lvl hwf sys hreach).2.2.2.2.2.2.2

/-- C9 witness: the five components instantiated at concrete states of the
`lvlC1` session (the reachable state `sysC1b` holds one snapshot; its undo
pops it). -/
theorem c9_history_bounded_lifo_stack_witness :
    sysC1b.gs.history.length ≤ maxHistory ∧
    ((GameState.load lvlC1).saveSnapshot).history =
      (GameState.load lvlC1).history ++ [snapOf (GameState.load lvlC1)] ∧
    sysC1b.gs.undo = (true,
      { sysC1b.gs with
        paths := ([] : List PathObj),
        occupiedCells := ({((0 : Int), (1 : Int)), ((0 : Int), (0 : Int))} : Finset Pos),
        currentNumber := 1, connectedPoints := (∅ : Finset Int),
        currentPath := none, history := sysC1b.gs.history.dropLast }) ∧
    (sysC1a.gs.completePath 0 1).history.length =
      min (sysC1a.gs.history.length + 1) maxHistory := by
  refine ⟨?_, ?_, ?_, ?_⟩
  · exact c9_history_bounded_lifo_stack.1 lvlC1 sysC1b (by unfold WellFormedLevel; decide)
      (Reachable.extend 0 1 (Reachable.start 0 0 Reachable.load))
  · exact c9_history_bounded_lifo_stack.2.1 (GameState.load lvlC1) (by decide)
  · exact c9_history_bounded_lifo_stack.2.2.2.1 sysC1b.gs
      ⟨[], {((0 : Int), (1 : Int)), ((0 : Int), (0 : Int))}, 1, ∅⟩ (by rfl)
  · exact c9_history_bounded_lifo_stack.2.2.2.2 sysC1a.gs ⟨1, [(0, 0)]⟩ 0 1
      (by decide) (by decide)

/-! ## The `LevelGenerator` class (src/js/game/LevelManager.js)

Randomness is modelled by an oracle `o : Nat → Nat` read at a strictly
increasing cursor `k`; every JS `Math.random()` call reads one fresh index.
`Math.floor(Math.random() * n)` becomes `o k % n`, and the probability-0.3
test `Math.random() < 0.3` becomes `o k % 10 < 3`: both draws range over
exactly the values the JS can produce, so every JS run corresponds to some
oracle. -/

/-- A stream of random draws. -/
abbrev Oracle := Nat → Nat

/-- `Math.floor(Math.random() * n)` for the draw at cursor `k` (`0` when
`n = 0`, as in JS where the product is `0`). -/
def randBelow (o : Oracle) (k n : Nat) : Nat := if n = 0 then 0 else o k % n

/-- One `[array[i], array[j]] = [array[j], array[i]]` destructuring swap. -/
def swapAt (l : List Pos) (i j : Nat) : List Pos :=
  let a := l.getD i (0, 0)
  let b := l.getD j (0, 0)
  (l.set i b).set j a

/-- The loop of `LevelGenerator._shuffle` (Fisher–Yates, `i` descending). -/
def shuffleGo (o : Oracle) : List Pos → Nat → Nat → List Pos × Nat
  | l, 0, k => (l, k)
  | l, i + 1, k => shuffleGo o (swapAt l (i + 1) (randBelow o k (i + 2))) i (k + 1)

/-- `LevelGenerator._shuffle`. -/
def shuffle (o : Oracle) (l : List Pos) (k : Nat) : List Pos × Nat :=
  shuffleGo o l (l.length - 1) k

/-- A stable insertion sort. The JS `Array.sort` with the Warnsdorff degree
comparator is a stable sort over a total preorder; any two stable sorts
agree, so this structurally recursive sort computes the same list as the
engine's `sort` (and, unlike a well-founded merge sort, evaluates in the
kernel). -/
def stableInsert (le : Pos → Pos → Bool) (a : Pos) : List Pos → List Pos
  | [] => [a]
  | b :: l => if le b a && !(le a b) then b :: stableInsert le a l else a :: b :: l

def stableSort (le : Pos → Pos → Bool) : List Pos → List Pos
  | [] => []
  | a :: l => stableInsert le a (stableSort le l)

/-- The four directions of `_getNeighbors`, in source order. -/
def dirList : List (Int × Int) := [(-1, 0), (1, 0), (0, -1), (0, 1)]

/-- `LevelGenerator._getNeighbors`: in-bounds, non-obstacle, unvisited
neighbours (the generator grid entry `-1` is obstacle membership). -/
def getNeighborsG (obs : Finset Pos) (size : Nat) (p : Pos) (visited : Finset Pos) : List Pos :=
  (dirList.map (fun d => (p.1 + d.1, p.2 + d.2))).filter
    (fun q => inBounds size q && !(decide (q ∈ obs)) && !(decide (q ∈ visited)))

/-- `state.maxIterations`. -/
def maxIterations : Nat := 50000

/-- Result of one `_hamiltonianDFS` call: the success flag together with the
(mutated) visited set, path, iteration counter and oracle cursor. -/
structure DFSOut where
  ok : Bool
  visited : Finset Pos
  path : List Pos
  iter : Nat
  k : Nat
deriving DecidableEq

/-- The `for (const next of neighbors)` loop: try candidates in order until
one succeeds (after a success the remaining iterations return immediately,
which is what the JS `return true` inside the loop does). -/
def dfsTryAll (f : Pos → Finset Pos → List Pos → Nat → Nat → DFSOut) :
    List Pos → DFSOut → DFSOut
  | [], acc => acc
  | n :: rest, acc =>
    if acc.ok then acc
    else dfsTryAll f rest (f n acc.visited acc.path acc.iter acc.k)

/-- `LevelGenerator._hamiltonianDFS`.  The extra `fuel` argument only makes
the recursion structural: one fuel unit is consumed per recursion depth
level.  Each level inserts its (fresh, unvisited) cell into `visited` and all
deeper candidates are in-bounds unvisited cells, so the recursion depth never
exceeds `size * size + 1`; the entry point passes exactly that much fuel,
making the `fuel = 0` branch unreachable and the function's behaviour
identical to the JS recursion.  (All universally quantified theorems below
are proved for arbitrary fuel and do not rely on this.) -/
def hamiltonianDFS (obs : Finset Pos) (size target maxIter : Nat) (o : Oracle) :
    Nat → Pos → Finset Pos → List Pos → Nat → Nat → DFSOut
  | fuel, pos, visited, path, iter, k =>
    if iter + 1 > maxIter then ⟨false, visited, path, iter + 1, k⟩
    else
      match fuel with
      | 0 => ⟨false, visited, path, iter + 1, k⟩
      | fuel + 1 =>
        let visited' := insert pos visited
        let path' := path ++ [pos]
        if path'.length = target then ⟨true, visited', path', iter + 1, k⟩
        else
          let ns := getNeighborsG obs size pos visited'
          let sorted := stableSort (fun a b =>
            (getNeighborsG obs size a visited').length ≤
              (getNeighborsG obs size b visited').length) ns
          let candsK :=
            if 1 < sorted.length then
              if o k % 10 < 3 then shuffle o sorted (k + 1) else (sorted, k + 1)
            else (sorted, k)
          let res := dfsTryAll (hamiltonianDFS obs size target maxIter o fuel) candsK.1
            ⟨false, visited', path', iter + 1, candsK.2⟩
          if res.ok then res
          else ⟨false, res.visited.erase pos, res.path.dropLast, res.iter, res.k⟩

/-- The corner loop of `_findHamiltonianPath` (skip obstacle corners, fresh
visited/path/iteration state per start). -/
def findHamiltonianGo (obs : Finset Pos) (size target : Nat) (o : Oracle) :
    List Pos → Nat → Option (List Pos) × Nat
  | [], k => (none, k)
  | s :: rest, k =>
    if s ∈ obs then findHamiltonianGo obs size target o rest k
    else
      let res := hamiltonianDFS obs size target maxIterations o (size * size + 1) s ∅ [] 0 k
      if res.ok then (some res.path, res.k) else findHamiltonianGo obs size target o rest res.k

/-- `LevelGenerator._findHamiltonianPath`. -/
def findHamiltonianPath (obs : Finset Pos) (size obsLen : Nat) (o : Oracle) (k : Nat) :
    Option (List Pos) × Nat :=
  let totalCells := size * size - obsLen
  let startPoints : List Pos :=
    [(0, 0), (0, (size : Int) - 1), ((size : Int) - 1, 0), ((size : Int) - 1, (size : Int) - 1)]
  let startsK := shuffle o startPoints k
  findHamiltonianGo obs size totalCells o startsK.1 startsK.2

/-- The corner cells excluded from obstacle placement. -/
def avoidCells (size : Nat) : List Pos :=
  [(0, 0), (0, (size : Int) - 1), ((size : Int) - 1, 0), ((size : Int) - 1, (size : Int) - 1)]

/-- The `while` loop of `_generateObstacles`, with the remaining attempt
budget as the recursion fuel (`attempts` counts up to `maxObstacles * 10`). -/
def generateObstaclesGo (size maxObstacles : Nat) (o : Oracle) :
    Nat → List Pos → Nat → List Pos × Nat
  | 0, acc, k => (acc, k)
  | att + 1, acc, k =>
    if acc.length < maxObstacles then
      let q : Pos := (1 + (randBelow o k (size - 2) : Int), 1 + (randBelow o (k + 1) (size - 2) : Int))
      if q ∉ acc ∧ q ∉ avoidCells size then
        generateObstaclesGo size maxObstacles o att (acc ++ [q]) (k + 2)
      else generateObstaclesGo size maxObstacles o att acc (k + 2)
    else (acc, k)

/-- `LevelGenerator._generateObstacles`. -/
def generateObstacles (size maxObstacles : Nat) (o : Oracle) (k : Nat) : List Pos × Nat :=
  generateObstaclesGo size maxObstacles o (maxObstacles * 10) [] k

/-- `LevelGenerator._placePoints`. -/
def placePoints (path : List Pos) (numPoints : Nat) : List Point :=
  let spacing := path.length / numPoints
  (List.range numPoints).map (fun (i : Nat) =>
    let index := if i = 0 then 0 else if i = numPoints - 1 then path.length - 1 else i * spacing
    let q := path.getD index (0, 0)
    { number := (i : Int) + 1, row := q.1, col := q.2 })

/-- JS `Array.prototype.slice` with its negative-index wrapping. -/
def jsSlice (l : List Pos) (s e : Int) : List Pos :=
  let n : Int := l.length
  let s' := (if s < 0 then max (n + s) 0 else min s n).toNat
  let e' := (if e < 0 then max (n + e) 0 else min e n).toNat
  (l.take e').drop s'

/-- `LevelGenerator._createSolution` (`findIndex` gives `-1` when absent). -/
def createSolution (path : List Pos) (points : List Point) : List Segment :=
  let pointIndices := points.map (fun pt =>
    match path.findIdx? (fun q => q.1 = pt.row && q.2 = pt.col) with
    | some idx => (idx : Int)
    | none => -1)
  (List.range (points.length - 1)).map (fun (i : Nat) =>
    { fromPoint := (i : Int) + 1, toPoint := (i : Int) + 2,
      path := jsSlice path (pointIndices.getD i (-1)) (pointIndices.getD (i + 1) (-1) + 1) })

/-- `Object.keys(THEMES).length` in Constants.js. -/
def themeCount : Nat := 6

/-- `LevelGenerator._tryGenerateLevel` (the `id`/`name` strings are dropped;
the level-id template literal consumes one extra `Math.random()` draw after
the theme draw). -/
def tryGenerateLevel (size numPoints maxObstacles : Nat) (o : Oracle) (k : Nat) :
    Option Level × Nat :=
  let obsK := generateObstacles size maxObstacles o k
  let obsSet := obsK.1.toFinset
  let pathK := findHamiltonianPath obsSet size obsK.1.length o obsK.2
  match pathK.1 with
  | none => (none, pathK.2)
  | some path =>
    let points := placePoints path numPoints
    let sol := createSolution path points
    (some { size := size, points := points, obstacles := obsK.1, solution := sol,
            theme := randBelow o pathK.2 themeCount, difficulty := (size + 3) / 4 },
     pathK.2 + 2)

/-- The `for (attempt < 50)` loop of `LevelGenerator.generate`. -/
def generateAttempts (size numPoints maxObstacles : Nat) (o : Oracle) :
    Nat → Nat → Option Level × Nat
  | 0, k => (none, k)
  | n + 1, k =>
    match tryGenerateLevel size numPoints maxObstacles o k with
    | (some lvl, k') => (some lvl, k')
    | (none, k') => generateAttempts size numPoints maxObstacles o n k'

/-- `LevelGenerator.generate`.  `maxObstacles = floor(size² · pct / 100)`
(with an integer `obstaclePercent`, as all presets use); 50 attempts with
obstacles, then one fallback attempt with zero obstacles. -/
def LevelGenerator.generate (size numPoints obstaclePercent : Nat) (o : Oracle) : Option Level :=
  let maxObstacles := size * size * obstaclePercent / 100
  match generateAttempts size numPoints maxObstacles o 50 0 with
  | (some lvl, _) => some lvl
  | (none, k) => (tryGenerateLevel size numPoints 0 o k).1

/-! ## Generator auxiliary lemmas -/

theorem stableInsert_perm (le : Pos → Pos → Bool) (a : Pos) (l : List Pos) :
    (stableInsert le a l).Perm (a :: l) := by
  induction l with
  | nil => exact List.Perm.refl _
  | cons b l ih =>
    unfold stableInsert
    split
    · exact ((ih.cons b).trans (List.Perm.swap a b l)).symm.symm
    · exact List.Perm.refl _

theorem stableSort_perm (le : Pos → Pos → Bool) (l : List Pos) :
    (stableSort le l).Perm l := by
  induction l with
  | nil => exact List.Perm.refl _
  | cons a l ih =>
    exact (stableInsert_perm le a (stableSort le l)).trans (ih.cons a)

theorem swapAt_length (l : List Pos) (i j : Nat) : (swapAt l i j).length = l.length := by
  simp [swapAt]

theorem swapAt_subset (l : List Pos) (i j : Nat) (hi : i < l.length) (hj : j < l.length) :
    ∀ x ∈ swapAt l i j, x ∈ l := by
  intro x hx
  unfold swapAt at hx
  rcases List.mem_or_eq_of_mem_set hx with hx | rfl
  · rcases List.mem_or_eq_of_mem_set hx with hx | rfl
    · exact hx
    · rw [List.getD_eq_getElem l _ hj]
      exact List.getElem_mem _
  · rw [List.getD_eq_getElem l _ hi]
    exact List.getElem_mem _

theorem shuffleGo_length (o : Oracle) (i : Nat) :
    ∀ l k, (shuffleGo o l i k).1.length = l.length := by
  induction i with
  | zero => intro l k; rfl
  | succ i ih =>
    intro l k
    unfold shuffleGo
    rw [ih, swapAt_length]

theorem shuffleGo_subset (o : Oracle) (i : Nat) :
    ∀ l k, i < l.length → ∀ x ∈ (shuffleGo o l i k).1, x ∈ l := by
  induction i with
  | zero => intro l k _ x hx; exact hx
  | succ i ih =>
    intro l k hi x hx
    unfold shuffleGo at hx
    have hjlt : randBelow o k (i + 2) < i + 2 := by
      unfold randBelow
      rw [if_neg (by omega)]
      exact Nat.mod_lt _ (by omega)
    have hswlen : (swapAt l (i + 1) (randBelow o k (i + 2))).length = l.length :=
      swapAt_length _ _ _
    have hx' := ih (swapAt l (i + 1) (randBelow o k (i + 2))) (k + 1) (by omega) x hx
    exact swapAt_subset l _ _ hi (by omega) x hx'

theorem shuffle_subset (o : Oracle) (l : List Pos) (k : Nat) :
    ∀ x ∈ (shuffle o l k).1, x ∈ l := by
  rcases l with _ | ⟨a, t⟩
  · intro x hx; exact hx
  · exact shuffleGo_subset o _ _ _ (by simp)

theorem shuffle_length (o : Oracle) (l : List Pos) (k : Nat) :
    (shuffle o l k).1.length = l.length := shuffleGo_length o _ l k

theorem getNeighborsG_mem (obs : Finset Pos) (size : Nat) (p : Pos) (visited : Finset Pos)
    (q : Pos) (hq : q ∈ getNeighborsG obs size p visited) :
    areAdjacent p q = true ∧ inBounds size q = true ∧ q ∉ obs ∧ q ∉ visited := by
  unfold getNeighborsG at hq
  rw [List.mem_filter] at hq
  obtain ⟨hmem, hcond⟩ := hq
  simp only [Bool.and_eq_true, Bool.not_eq_true', decide_eq_false_iff_not] at hcond
  refine ⟨?_, hcond.1.1, hcond.1.2, hcond.2⟩
  rw [List.mem_map] at hmem
  obtain ⟨d, hd, rfl⟩ := hmem
  unfold dirList at hd
  unfold areAdjacent
  simp only [List.mem_cons, List.mem_singleton, List.not_mem_nil, or_false] at hd
  rcases hd with rfl | rfl | rfl | rfl <;>
    (simp only [Bool.or_eq_true, Bool.and_eq_true, decide_eq_true_eq]
     omega)

theorem getNeighborsG_length (obs : Finset Pos) (size : Nat) (p : Pos) (visited : Finset Pos) :
    (getNeighborsG obs size p visited).length ≤ 4 := by
  unfold getNeighborsG
  have := List.length_filter_le
    (fun q => inBounds size q && !(decide (q ∈ obs)) && !(decide (q ∈ visited)))
    ((dirList.map (fun d => (p.1 + d.1, p.2 + d.2))))
  simpa [dirList] using this

/-- The (sorted and possibly shuffled) candidate list of one DFS step has the
same members as the raw neighbour list and at most 4 entries. -/
theorem dfs_cands_spec (obs : Finset Pos) (size : Nat) (o : Oracle) (pos : Pos)
    (visited' : Finset Pos) (k : Nat) :
    let ns := getNeighborsG obs size pos visited'
    let sorted := stableSort (fun a b =>
      (getNeighborsG obs size a visited').length ≤
        (getNeighborsG obs size b visited').length) ns
    let candsK :=
      if 1 < sorted.length then
        if o k % 10 < 3 then shuffle o sorted (k + 1) else (sorted, k + 1)
      else (sorted, k)
    (∀ x ∈ candsK.1, x ∈ ns) ∧ candsK.1.length ≤ 4 := by
  intro ns sorted candsK
  have hsort : ∀ x ∈ sorted, x ∈ ns := fun x hx => (stableSort_perm _ ns).mem_iff.1 hx
  have hsortlen : sorted.length = ns.length := (stableSort_perm _ ns).length_eq
  have hnslen : ns.length ≤ 4 := getNeighborsG_length obs size pos visited'
  show (∀ x ∈ candsK.1, x ∈ ns) ∧ candsK.1.length ≤ 4
  unfold candsK
  split
  · split
    · refine ⟨fun x hx => hsort x (shuffle_subset o sorted (k + 1) x hx), ?_⟩
      rw [shuffle_length, hsortlen]; exact hnslen
    · exact ⟨hsort, by rw [hsortlen]; exact hnslen⟩
  · exact ⟨hsort, by rw [hsortlen]; exact hnslen⟩

theorem dfsTryAll_of_ok (f : Pos → Finset Pos → List Pos → Nat → Nat → DFSOut)
    (cands : List Pos) (acc : DFSOut) (h : acc.ok = true) : dfsTryAll f cands acc = acc := by
  cases cands with
  | nil => rfl
  | cons n rest => unfold dfsTryAll; rw [if_pos h]

theorem dfsTryAll_iter_le (f : Pos → Finset Pos → List Pos → Nat → Nat → DFSOut)
    (hf : ∀ n v p it k, it ≤ (f n v p it k).iter) :
    ∀ cands acc, acc.iter ≤ (dfsTryAll f cands acc).iter := by
  intro cands
  induction cands with
  | nil => intro acc; exact le_refl _
  | cons n rest ih =>
    intro acc
    unfold dfsTryAll
    split
    · exact le_refl _
    · exact le_trans (hf n acc.visited acc.path acc.iter acc.k) (ih _)

/-- The `if res.ok` conclusion of a DFS step keeps the iteration counter. -/
theorem dfs_finish_iter (pos : Pos) (res : DFSOut) :
    (if res.ok then res
     else ⟨false, res.visited.erase pos, res.path.dropLast, res.iter, res.k⟩).iter = res.iter := by
  split <;> rfl

theorem hamiltonianDFS_iter_lt (obs : Finset Pos) (size target maxIter : Nat) (o : Oracle) :
    ∀ fuel pos v p it k,
      it < (hamiltonianDFS obs size target maxIter o fuel pos v p it k).iter := by
  intro fuel
  induction fuel with
  | zero =>
    intro pos v p it k
    unfold hamiltonianDFS
    split <;> simp
  | succ fuel ih =>
    intro pos v p it k
    unfold hamiltonianDFS
    split
    · simp
    · dsimp only
      split
      · simp
      · rw [dfs_finish_iter pos]
        refine lt_of_lt_of_le ?_
          (dfsTryAll_iter_le _ (fun n v' p' it' k' => le_of_lt (ih n v' p' it' k')) _ _)
        exact Nat.lt_succ_self it

theorem dfsTryAll_restore (f : Pos → Finset Pos → List Pos → Nat → Nat → DFSOut)
    (hf : ∀ n v p it k, n ∉ v → (f n v p it k).ok = false →
      (f n v p it k).visited = v ∧ (f n v p it k).path = p) :
    ∀ cands acc, (∀ n ∈ cands, n ∉ acc.visited) → (dfsTryAll f cands acc).ok = false →
      (dfsTryAll f cands acc).visited = acc.visited ∧
        (dfsTryAll f cands acc).path = acc.path := by
  intro cands
  induction cands with
  | nil => intro acc _ _; exact ⟨rfl, rfl⟩
  | cons n rest ih =>
    intro acc hmem hfail
    unfold dfsTryAll at hfail ⊢
    by_cases hacc : acc.ok = true
    · rw [if_pos hacc]
      exact ⟨rfl, rfl⟩
    · rw [if_neg hacc] at hfail ⊢
      rcases hchild : (f n acc.visited acc.path acc.iter acc.k).ok with _ | _
      · have hres := hf n acc.visited acc.path acc.iter acc.k
          (hmem n (List.mem_cons_self n rest)) hchild
        have h2 := ih (f n acc.visited acc.path acc.iter acc.k)
          (by intro m hm; rw [hres.1]; exact hmem m (List.mem_cons_of_mem _ hm)) hfail
        rw [h2.1, h2.2, hres.1, hres.2]
        exact ⟨rfl, rfl⟩
      · rw [dfsTryAll_of_ok _ _ _ hchild] at hfail
        rw [hchild] at hfail
        cases hfail

/-- The tail of one DFS step (the `if res.ok` conclusion) restores the
caller's visited set and path on failure. -/
theorem dfs_finish_restore (v : Finset Pos) (p : List Pos) (pos : Pos) (hpos : pos ∉ v)
    (res : DFSOut)
    (hrestore : res.ok = false → res.visited = insert pos v ∧ res.path = p ++ [pos]) :
    (if res.ok then res
     else ⟨false, res.visited.erase pos, res.path.dropLast, res.iter, res.k⟩).ok = false →
    ((if res.ok then res
      else ⟨false, res.visited.erase pos, res.path.dropLast, res.iter, res.k⟩).visited = v ∧
     (if res.ok then res
      else ⟨false, res.visited.erase pos, res.path.dropLast, res.iter, res.k⟩).path = p) := by
  by_cases hok : res.ok = true
  · rw [if_pos hok]
    intro hfail
    rw [hok] at hfail
    cases hfail
  · rw [if_neg hok]
    intro _
    obtain ⟨h1, h2⟩ := hrestore (by simpa using hok)
    constructor
    · dsimp only
      rw [h1]
      exact Finset.erase_insert hpos
    · dsimp only
      rw [h2]
      exact List.dropLast_concat

theorem hamiltonianDFS_restore (obs : Finset Pos) (size target maxIter : Nat) (o : Oracle) :
    ∀ fuel pos v p it k, pos ∉ v →
      (hamiltonianDFS obs size target maxIter o fuel pos v p it k).ok = false →
      (hamiltonianDFS obs size target maxIter o fuel pos v p it k).visited = v ∧
        (hamiltonianDFS obs size target maxIter o fuel pos v p it k).path = p := by
  intro fuel
  induction fuel with
  | zero =>
    intro pos v p it k _ _
    unfold hamiltonianDFS
    split <;> exact ⟨rfl, rfl⟩
  | succ fuel ih =>
    intro pos v p it k hpos
    unfold hamiltonianDFS
    split
    · intro _; exact ⟨rfl, rfl⟩
    · dsimp only
      split
      · intro hh; exact absurd hh (by simp)
      · refine dfs_finish_restore v p pos hpos _ ?_
        intro hresfail
        obtain ⟨hsub, -⟩ := dfs_cands_spec obs size o pos (insert pos v) k
        exact dfsTryAll_restore (hamiltonianDFS obs size target maxIter o fuel)
          (fun n v' p' it' k' => ih n v' p' it' k') _ _
          (by
            intro m hm
            exact (getNeighborsG_mem obs size pos (insert pos v) m (hsub m hm)).2.2.2)
          hresfail

/-- Invariant of a partial search path: the visited set is exactly the path's
cells, the path repeats no cell, stays on free in-bounds cells, and its
consecutive cells are 4-adjacent. -/
def GoodPath (obs : Finset Pos) (size : Nat) (v : Finset Pos) (p : List Pos) : Prop :=
  v = p.toFinset ∧ p.Nodup ∧ (∀ q ∈ p, inBounds size q = true ∧ q ∉ obs) ∧
  List.Chain' (fun a b => areAdjacent a b = true) p

theorem GoodPath.extend (obs : Finset Pos) (size : Nat) (v : Finset Pos) (p : List Pos)
    (hg : GoodPath obs size v p) (pos : Pos) (hpos : pos ∉ v)
    (hb : inBounds size pos = true) (hobs : pos ∉ obs)
    (hadj : ∀ x, p.getLast? = some x → areAdjacent x pos = true) :
    GoodPath obs size (insert pos v) (p ++ [pos]) := by
  obtain ⟨h1, h2, h3, h4⟩ := hg
  have hpnotin : pos ∉ p := by
    intro hmem
    exact hpos (by rw [h1]; exact List.mem_toFinset.2 hmem)
  refine ⟨?_, ?_, ?_, ?_⟩
  · rw [List.toFinset_append, h1]
    simp [Finset.union_comm, Finset.insert_eq]
  · rw [List.nodup_append]
    exact ⟨h2, List.nodup_singleton _, by
      intro x hx hmem
      rw [List.mem_singleton] at hmem
      subst hmem
      exact hpnotin hx⟩
  · intro q hq
    rcases List.mem_append.1 hq with h | h
    · exact h3 q h
    · rw [List.mem_singleton] at h
      subst h
      exact ⟨hb, hobs⟩
  · rw [List.chain'_append]
    refine ⟨h4, List.chain'_singleton _, ?_⟩
    intro x hx y hy
    simp only [List.head?_cons, Option.mem_def, Option.some_inj] at hy
    subst hy
    exact hadj x hx

theorem dfs_finish_ok (P : DFSOut → Prop) (pos : Pos) (res : DFSOut)
    (h : res.ok = true → P res) :
    (if res.ok then res
     else ⟨false, res.visited.erase pos, res.path.dropLast, res.iter, res.k⟩).ok = true →
    P (if res.ok then res
       else ⟨false, res.visited.erase pos, res.path.dropLast, res.iter, res.k⟩) := by
  by_cases hok : res.ok = true
  · rw [if_pos hok]
    intro _
    exact h hok
  · rw [if_neg hok]
    intro hh
    exact absurd hh (by simp)

theorem dfsTryAll_success (f : Pos → Finset Pos → List Pos → Nat → Nat → DFSOut)
    (P : DFSOut → Prop) (v' : Finset Pos) (p' : List Pos) :
    ∀ cands : List Pos,
    (∀ n ∈ cands, n ∉ v') →
    (∀ n it k, n ∉ v' → (f n v' p' it k).ok = false →
      (f n v' p' it k).visited = v' ∧ (f n v' p' it k).path = p') →
    (∀ n it k, n ∈ cands → (f n v' p' it k).ok = true → P (f n v' p' it k)) →
    ∀ acc, (acc.ok = false → acc.visited = v' ∧ acc.path = p') → (acc.ok = true → P acc) →
      (dfsTryAll f cands acc).ok = true → P (dfsTryAll f cands acc) := by
  intro cands
  induction cands with
  | nil =>
    intro _ _ _ acc _ haccP hok
    exact haccP hok
  | cons n rest ih =>
    intro hC hrestore hpost acc haccR haccP
    unfold dfsTryAll
    by_cases hacc : acc.ok = true
    · rw [if_pos hacc]
      intro _
      exact haccP hacc
    · rw [if_neg hacc]
      obtain ⟨h1, h2⟩ := haccR (by simpa using hacc)
      rw [h1, h2]
      refine ih (fun m hm => hC m (List.mem_cons_of_mem _ hm)) hrestore
        (fun m it k hm => hpost m it k (List.mem_cons_of_mem _ hm)) _ ?_ ?_
      · intro hfail
        exact hrestore n acc.iter acc.k (hC n (List.mem_cons_self n rest)) hfail
      · intro hok
        exact hpost n acc.iter acc.k (List.mem_cons_self n rest) hok

theorem hamiltonianDFS_success (obs : Finset Pos) (size target maxIter : Nat) (o : Oracle) :
    ∀ fuel pos v p it k,
      GoodPath obs size v p →
      pos ∉ v → inBounds size pos = true → pos ∉ obs →
      (∀ x, p.getLast? = some x → areAdjacent x pos = true) →
      (hamiltonianDFS obs size target maxIter o fuel pos v p it k).ok = true →
      (GoodPath obs size
        (hamiltonianDFS obs size target maxIter o fuel pos v p it k).visited
        (hamiltonianDFS obs size target maxIter o fuel pos v p it k).path ∧
       (hamiltonianDFS obs size target maxIter o fuel pos v p it k).path.length = target ∧
       (hamiltonianDFS obs size target maxIter o fuel pos v p it k).path ≠ []) := by
  intro fuel
  induction fuel with
  | zero =>
    intro pos v p it k _ _ _ _ _
    unfold hamiltonianDFS
    split <;> (intro h; exact absurd h (by simp))
  | succ fuel ih =>
    intro pos v p it k hg hpos hb hobs hadj
    have hgood' : GoodPath obs size (insert pos v) (p ++ [pos]) :=
      GoodPath.extend obs size v p hg pos hpos hb hobs hadj
    unfold hamiltonianDFS
    split
    · intro h; exact absurd h (by simp)
    · dsimp only
      split <;> rename_i hlen
      · intro _
        exact ⟨hgood', hlen, by simp⟩
      · obtain ⟨hsub, -⟩ := dfs_cands_spec obs size o pos (insert pos v) k
        refine dfs_finish_ok
          (fun r => GoodPath obs size r.visited r.path ∧ r.path.length = target ∧ r.path ≠ [])
          pos _ ?_
        refine dfsTryAll_success (hamiltonianDFS obs size target maxIter o fuel)
          (fun r => GoodPath obs size r.visited r.path ∧ r.path.length = target ∧ r.path ≠ [])
          (insert pos v) (p ++ [pos]) _
          (fun m hm => (getNeighborsG_mem obs size pos (insert pos v) m (hsub m hm)).2.2.2)
          (fun m it' k' hm => hamiltonianDFS_restore obs size target maxIter o fuel
            m (insert pos v) (p ++ [pos]) it' k' hm) ?_ _ ?_ ?_
        · intro m it' k' hm hok
          obtain ⟨hma, hmb, hmo, -⟩ := getNeighborsG_mem obs size pos (insert pos v) m (hsub m hm)
          refine ih m (insert pos v) (p ++ [pos]) it' k' hgood'
            (getNeighborsG_mem obs size pos (insert pos v) m (hsub m hm)).2.2.2 hmb hmo ?_ hok
          intro x hx
          rw [List.getLast?_concat] at hx
          rw [Option.some_inj] at hx
          subst hx
          exact hma
        · intro _
          exact ⟨rfl, rfl⟩
        · intro h
          exact absurd h (by simp)

theorem hamiltonianDFS_ok_length (obs : Finset Pos) (size target maxIter : Nat) (o : Oracle) :
    ∀ fuel pos v p it k,
      (hamiltonianDFS obs size target maxIter o fuel pos v p it k).ok = true →
      (hamiltonianDFS obs size target maxIter o fuel pos v p it k).path.length = target ∧
      (hamiltonianDFS obs size target maxIter o fuel pos v p it k).path ≠ [] := by
  intro fuel
  induction fuel with
  | zero =>
    intro pos v p it k
    unfold hamiltonianDFS
    split <;> (intro h; exact absurd h (by simp))
  | succ fuel ih =>
    intro pos v p it k
    unfold hamiltonianDFS
    split
    · intro h; exact absurd h (by simp)
    · dsimp only
      split <;> rename_i hlen
      · intro _
        exact ⟨hlen, by simp⟩
      · obtain ⟨hsub, -⟩ := dfs_cands_spec obs size o pos (insert pos v) k
        refine dfs_finish_ok (fun r => r.path.length = target ∧ r.path ≠ []) pos _ ?_
        refine dfsTryAll_success (hamiltonianDFS obs size target maxIter o fuel)
          (fun r => r.path.length = target ∧ r.path ≠ []) (insert pos v) (p ++ [pos]) _
          (fun m hm => (getNeighborsG_mem obs size pos (insert pos v) m (hsub m hm)).2.2.2)
          (fun m it' k' hm => hamiltonianDFS_restore obs size target maxIter o fuel
            m (insert pos v) (p ++ [pos]) it' k' hm)
          (fun m it' k' _ hok => ih m (insert pos v) (p ++ [pos]) it' k' hok) _
          (fun _ => ⟨rfl, rfl⟩) ?_
        intro h
        exact absurd h (by simp)

theorem findHamiltonianGo_success (obs : Finset Pos) (size target : Nat) (o : Oracle) :
    ∀ starts k, (∀ s ∈ starts, inBounds size s = true) →
    ∀ path k2, findHamiltonianGo obs size target o starts k = (some path, k2) →
    GoodPath obs size path.toFinset path ∧ path.length = target ∧ path ≠ [] := by
  intro starts
  induction starts with
  | nil =>
    intro k _ path k2 h
    unfold findHamiltonianGo at h
    cases h
  | cons s rest ih =>
    intro k hb path k2 h
    unfold findHamiltonianGo at h
    split at h
    · exact ih _ (fun x hx => hb x (List.mem_cons_of_mem _ hx)) path k2 h
    · rename_i hobs
      dsimp only at h
      split at h <;> rename_i hok
      · obtain ⟨hpath, -⟩ := Prod.mk.injEq .. ▸ h
        rw [Option.some_inj] at hpath
        subst hpath
        obtain ⟨hg, hlen, hne⟩ := hamiltonianDFS_success obs size target maxIterations o
          (size * size + 1) s ∅ [] 0 k
          ⟨by simp, List.nodup_nil, by simp, List.chain'_nil⟩
          (by simp) (hb s (List.mem_cons_self s rest)) hobs
          (by intro x hx; cases hx) hok
        refine ⟨?_, hlen, hne⟩
        have hv := hg.1
        rw [hv] at hg
        exact hg
      · exact ih _ (fun x hx => hb x (List.mem_cons_of_mem _ hx)) path k2 h

theorem findHamiltonianGo_ok_length (obs : Finset Pos) (size target : Nat) (o : Oracle) :
    ∀ starts k path k2, findHamiltonianGo obs size target o starts k = (some path, k2) →
    path.length = target ∧ path ≠ [] := by
  intro starts
  induction starts with
  | nil =>
    intro k path k2 h
    unfold findHamiltonianGo at h
    cases h
  | cons s rest ih =>
    intro k path k2 h
    unfold findHamiltonianGo at h
    split at h
    · exact ih _ path k2 h
    · dsimp only at h
      split at h <;> rename_i hok
      · obtain ⟨hpath, -⟩ := Prod.mk.injEq .. ▸ h
        rw [Option.some_inj] at hpath
        subst hpath
        exact hamiltonianDFS_ok_length obs size target maxIterations o
          (size * size + 1) s ∅ [] 0 k hok
      · exact ih _ path k2 h

theorem findHamiltonianPath_spec (obs : Finset Pos) (size obsLen : Nat) (o : Oracle)
    (k : Nat) (path : List Pos) (k2 : Nat)
    (h : findHamiltonianPath obs size obsLen o k = (some path, k2)) :
    GoodPath obs size path.toFinset path ∧ path.length = size * size - obsLen ∧ path ≠ [] := by
  unfold findHamiltonianPath at h
  by_cases hsz : size = 0
  · subst hsz
    obtain ⟨hlen, hne⟩ := findHamiltonianGo_ok_length _ _ _ _ _ _ _ _ h
    exfalso
    apply hne
    rw [← List.length_eq_zero, hlen]
    omega
  · refine findHamiltonianGo_success obs size _ o _ _ ?_ path k2 h
    intro s hs
    have hmem := shuffle_subset o _ _ s hs
    have h1 : 1 ≤ size := Nat.one_le_iff_ne_zero.2 hsz
    simp only [List.mem_cons, List.mem_singleton, List.not_mem_nil, or_false] at hmem
    rcases hmem with rfl | rfl | rfl | rfl <;>
      (simp only [inBounds, Bool.and_eq_true, decide_eq_true_eq]
       omega)

theorem generateObstaclesGo_spec (size maxO : Nat) (o : Oracle) (B : Pos → Prop)
    (hB : ∀ j : Nat, B (1 + (randBelow o j (size - 2) : Int),
      1 + (randBelow o (j + 1) (size - 2) : Int))) :
    ∀ att acc k, acc.Nodup → (∀ q ∈ acc, B q) →
      (generateObstaclesGo size maxO o att acc k).1.Nodup ∧
      (∀ q ∈ (generateObstaclesGo size maxO o att acc k).1, B q) := by
  intro att
  induction att with
  | zero => intro acc k h1 h2; exact ⟨h1, h2⟩
  | succ att ih =>
    intro acc k h1 h2
    unfold generateObstaclesGo
    dsimp only
    split
    · split
      · rename_i hq
        apply ih
        · simp only [List.nodup_append, List.nodup_singleton, List.disjoint_singleton]
          exact ⟨h1, trivial, hq.1⟩
        · intro x hx
          rcases List.mem_append.1 hx with hx | hx
          · exact h2 x hx
          · rw [List.mem_singleton] at hx
            subst hx
            exact hB k
      · exact ih acc (k + 2) h1 h2
    · exact ⟨h1, h2⟩

theorem generateObstacles_spec (size maxO : Nat) (o : Oracle) (k : Nat) :
    (generateObstacles size maxO o k).1.Nodup ∧
    (2 ≤ size → ∀ q ∈ (generateObstacles size maxO o k).1, inBounds size q = true) := by
  have h := generateObstaclesGo_spec size maxO o
    (fun q => 2 ≤ size → inBounds size q = true) ?_ (maxO * 10) [] k List.nodup_nil
    (by intro q hq; cases hq)
  · refine ⟨h.1, fun h2 q hq => h.2 q hq h2⟩
  · intro j h2
    simp only [inBounds, randBelow, Bool.and_eq_true, decide_eq_true_eq]
    by_cases hz : size - 2 = 0
    · rw [if_pos hz, if_pos hz]
      push_cast
      refine ⟨⟨⟨trivial, ?_⟩, trivial⟩, ?_⟩ <;> omega
    · rw [if_neg hz, if_neg hz]
      have ha := Nat.mod_lt (o j) (Nat.pos_of_ne_zero hz)
      have hb := Nat.mod_lt (o (j + 1)) (Nat.pos_of_ne_zero hz)
      push_cast
      omega

/-- The set of in-bounds cells of a `size × size` board. -/
def boardCells (size : Nat) : Finset Pos :=
  (Finset.range size ×ˢ Finset.range size).image (fun rc => ((rc.1 : Int), (rc.2 : Int)))

theorem mem_boardCells (size : Nat) (q : Pos) :
    q ∈ boardCells size ↔ inBounds size q = true := by
  obtain ⟨q1, q2⟩ := q
  unfold boardCells inBounds
  simp only [Finset.mem_image, Finset.mem_product, Finset.mem_range, Bool.and_eq_true,
    decide_eq_true_eq]
  constructor
  · rintro ⟨⟨a, b⟩, ⟨ha, hb⟩, hab⟩
    rw [Prod.mk.injEq] at hab
    obtain ⟨h1, h2⟩ := hab
    subst h1
    subst h2
    refine ⟨⟨⟨?_, ?_⟩, ?_⟩, ?_⟩ <;> omega
  · rintro ⟨⟨⟨h1, h2⟩, h3⟩, h4⟩
    refine ⟨⟨q1.toNat, q2.toNat⟩, ⟨?_, ?_⟩, ?_⟩
    · omega
    · omega
    · rw [Prod.mk.injEq]
      constructor <;> omega

theorem boardCells_card (size : Nat) : (boardCells size).card = size * size := by
  unfold boardCells
  rw [Finset.card_image_of_injective, Finset.card_product, Finset.card_range]
  intro x y hxy
  obtain ⟨a, b⟩ := x
  obtain ⟨c, d⟩ := y
  simp only [Prod.mk.injEq, Nat.cast_inj] at hxy
  rw [hxy.1, hxy.2]

theorem freeCells_card (size : Nat) (obstacles : List Pos) (hnd : obstacles.Nodup)
    (hb : ∀ q ∈ obstacles, inBounds size q = true) :
    (boardCells size \ obstacles.toFinset).card = size * size - obstacles.length := by
  rw [Finset.card_sdiff]
  · rw [boardCells_card, List.toFinset_card_of_nodup hnd]
  · intro q hq
    rw [mem_boardCells]
    exact hb q (List.mem_toFinset.1 hq)

/-- A Hamiltonian path on the free cells of the board: duplicate-free,
orthogonally connected step by step, visiting exactly the in-bounds
non-obstacle cells. -/
def HamiltonianOn (size : Nat) (obstacles : List Pos) (path : List Pos) : Prop :=
  path.Nodup ∧ List.Chain' (fun a b => areAdjacent a b = true) path ∧
  path.length = size * size - obstacles.length ∧
  ∀ q : Pos, q ∈ path ↔ (inBounds size q = true ∧ q ∉ obstacles)

theorem goodPath_covers (size : Nat) (obstacles : List Pos) (path : List Pos)
    (hnd : obstacles.Nodup) (hbnd : 2 ≤ size → ∀ q ∈ obstacles, inBounds size q = true)
    (hg : GoodPath obstacles.toFinset size path.toFinset path)
    (hlen : path.length = size * size - obstacles.length)
    (hne : path ≠ []) :
    HamiltonianOn size obstacles path := by
  obtain ⟨-, hpnd, hmem, hchain⟩ := hg
  have hforward : ∀ q ∈ path, inBounds size q = true ∧ q ∉ obstacles := by
    intro q hq
    obtain ⟨h1, h2⟩ := hmem q hq
    exact ⟨h1, fun hmem2 => h2 (List.mem_toFinset.2 hmem2)⟩
  have hbnd2 : ∀ q ∈ obstacles, inBounds size q = true := by
    by_cases hobs : obstacles = []
    · subst hobs
      intro q hq
      cases hq
    · apply hbnd
      by_contra hlt
      push_neg at hlt
      have hol : 0 < obstacles.length := List.length_pos.2 hobs
      have hs : size = 0 ∨ size = 1 := by omega
      have hplen : path.length = 0 := by
        rcases hs with rfl | rfl <;> (rw [hlen]; omega)
      exact hne (List.length_eq_zero.1 hplen)
  refine ⟨hpnd, hchain, hlen, ?_⟩
  intro q
  refine ⟨fun hq => hforward q hq, ?_⟩
  rintro ⟨hqb, hqo⟩
  have hsub : path.toFinset ⊆ boardCells size \ obstacles.toFinset := by
    intro x hx
    have hx2 := hforward x (List.mem_toFinset.1 hx)
    rw [Finset.mem_sdiff, mem_boardCells]
    exact ⟨hx2.1, fun hc => hx2.2 (List.mem_toFinset.1 hc)⟩
  have hcard : (boardCells size \ obstacles.toFinset).card ≤ path.toFinset.card := by
    rw [freeCells_card size obstacles hnd hbnd2, List.toFinset_card_of_nodup hpnd, hlen]
  have heq := Finset.eq_of_subset_of_card_le hsub hcard
  have hq : q ∈ boardCells size \ obstacles.toFinset := by
    rw [Finset.mem_sdiff, mem_boardCells]
    exact ⟨hqb, fun hc => hqo (List.mem_toFinset.1 hc)⟩
  rw [← heq] at hq
  exact List.mem_toFinset.1 hq

theorem tryGenerateLevel_spec (size numPoints maxO : Nat) (o : Oracle) (k : Nat)
    (lvl : Level) (k2 : Nat)
    (h : tryGenerateLevel size numPoints maxO o k = (some lvl, k2)) :
    lvl.size = size ∧
    ∃ path : List Pos,
      HamiltonianOn size lvl.obstacles path ∧
      lvl.points = placePoints path numPoints ∧
      lvl.solution = createSolution path (placePoints path numPoints) := by
  unfold tryGenerateLevel at h
  dsimp only at h
  split at h
  · cases h
  · rename_i path hp
    have hfeq : findHamiltonianPath (generateObstacles size maxO o k).1.toFinset size
        (generateObstacles size maxO o k).1.length o (generateObstacles size maxO o k).2
        = (some path, (findHamiltonianPath (generateObstacles size maxO o k).1.toFinset size
        (generateObstacles size maxO o k).1.length o (generateObstacles size maxO o k).2).2) := by
      rw [← hp]
    obtain ⟨hg, hlen, hne⟩ := findHamiltonianPath_spec _ _ _ _ _ _ _ hfeq
    obtain ⟨hnd, hbnd⟩ := generateObstacles_spec size maxO o k
    obtain ⟨h1, -⟩ := Prod.mk.injEq .. ▸ h
    rw [Option.some_inj] at h1
    subst h1
    exact ⟨rfl, path, goodPath_covers size _ path hnd hbnd hg hlen hne, rfl, rfl⟩

theorem generateAttempts_some (size numPoints maxO : Nat) (o : Oracle) :
    ∀ n k lvl k2, generateAttempts size numPoints maxO o n k = (some lvl, k2) →
    ∃ kStart, tryGenerateLevel size numPoints maxO o kStart = (some lvl, k2) := by
  intro n
  induction n with
  | zero => intro k lvl k2 h; cases h
  | succ n ih =>
    intro k lvl k2 h
    unfold generateAttempts at h
    split at h
    · rename_i lvl' k' heq
      obtain ⟨h1, h2⟩ := Prod.mk.injEq .. ▸ h
      rw [Option.some_inj] at h1
      subst h1
      subst h2
      exact ⟨k, heq⟩
    · exact ih _ lvl k2 h

/-- C4: every level produced by `LevelGenerator.generate` carries a
Hamiltonian path of the free board (duplicate-free, orthogonally adjacent
step by step, covering exactly the in-bounds non-obstacle cells, of length
`size² − |obstacles|`), and the level's points and solution segments are
computed from that path by `_placePoints` and `_createSolution`. -/
theorem c4_generated_level_hamiltonicity
    (size numPoints obstaclePercent : Nat) (o : Oracle) (lvl : Level)
    (h : LevelGenerator.generate size numPoints obstaclePercent o = some lvl) :
    lvl.size = size ∧
    ∃ path : List Pos,
      HamiltonianOn size lvl.obstacles path ∧
      lvl.points = placePoints path numPoints ∧
      lvl.solution = createSolution path (placePoints path numPoints) := by
  unfold LevelGenerator.generate at h
  dsimp only at h
  split at h
  · rename_i lvl' k' heq
    rw [Option.some_inj] at h
    subst h
    obtain ⟨k0, hk⟩ := generateAttempts_some _ _ _ _ _ _ _ _ heq
    exact tryGenerateLevel_spec _ _ _ _ _ _ _ hk
  · rename_i k heq2
    have hfull : tryGenerateLevel size numPoints 0 o k
        = (some lvl, (tryGenerateLevel size numPoints 0 o k).2) := by
      rw [← h]
    exact tryGenerateLevel_spec _ _ _ _ _ _ _ hfull

/-- The constant oracle drawing `3` every time (every `Math.random()` call
returns the same value); used for concrete generator runs. -/
def oracle3 : Oracle := fun _ => 3

/-- The level `generate 2 2 0 oracle3` produces. -/
def lvlC4w : Level :=
  { size := 2,
    points := [{ number := 1, row := 1, col := 0 }, { number := 2, row := 1, col := 1 }],
    obstacles := [],
    solution := [{ fromPoint := 1, toPoint := 2, path := [(1, 0), (0, 0), (0, 1), (1, 1)] }],
    theme := 3, difficulty := 1 }

set_option maxHeartbeats 4000000 in
theorem c4_generated_level_hamiltonicity_witness :
    lvlC4w.size = 2 ∧
    ∃ path : List Pos,
      HamiltonianOn 2 lvlC4w.obstacles path ∧
      lvlC4w.points = placePoints path 2 ∧
      lvlC4w.solution = createSolution path (placePoints path 2) :=
  c4_generated_level_hamiltonicity 2 2 0 oracle3 lvlC4w (by decide)

theorem hamiltonianDFS_capped (obs : Finset Pos) (size target maxIter : Nat) (o : Oracle)
    (fuel : Nat) (pos : Pos) (v : Finset Pos) (p : List Pos) (it k : Nat)
    (h : maxIter ≤ it) :
    hamiltonianDFS obs size target maxIter o fuel pos v p it k = ⟨false, v, p, it + 1, k⟩ := by
  unfold hamiltonianDFS
  rw [if_pos (by omega)]

theorem dfsTryAll_iter_bound (f : Pos → Finset Pos → List Pos → Nat → Nat → DFSOut)
    (maxIter : Nat)
    (hlo : ∀ n v p it k, it < (f n v p it k).iter)
    (hhi : ∀ n v p it k, (f n v p it k).iter ≤ it + 1 + 4 * (maxIter - it)) :
    ∀ cands acc, (dfsTryAll f cands acc).iter ≤
      acc.iter + cands.length + 4 * (maxIter - acc.iter) := by
  intro cands
  induction cands with
  | nil =>
    intro acc
    unfold dfsTryAll
    omega
  | cons n rest ih =>
    intro acc
    unfold dfsTryAll
    split
    · simp only [List.length_cons]
      omega
    · have h1 := hlo n acc.visited acc.path acc.iter acc.k
      have h2 := hhi n acc.visited acc.path acc.iter acc.k
      have h3 := ih (f n acc.visited acc.path acc.iter acc.k)
      simp only [List.length_cons] at *
      omega

theorem hamiltonianDFS_iter_bound (obs : Finset Pos) (size target maxIter : Nat) (o : Oracle) :
    ∀ fuel pos v p it k,
      (hamiltonianDFS obs size target maxIter o fuel pos v p it k).iter ≤
        it + 1 + 4 * (maxIter - it) := by
  intro fuel
  induction fuel with
  | zero =>
    intro pos v p it k
    unfold hamiltonianDFS
    split <;> (dsimp only; omega)
  | succ fuel ih =>
    intro pos v p it k
    unfold hamiltonianDFS
    split
    · dsimp only
      omega
    · rename_i hcap
      dsimp only
      split
      · dsimp only
        omega
      · rw [dfs_finish_iter pos]
        obtain ⟨-, hlen4⟩ := dfs_cands_spec obs size o pos (insert pos v) k
        refine le_trans (dfsTryAll_iter_bound _ maxIter
          (fun n v' p' it' k' =>
            hamiltonianDFS_iter_lt obs size target maxIter o fuel n v' p' it' k')
          (fun n v' p' it' k' => ih n v' p' it' k') _ _) ?_
        dsimp only
        omega

/-- C6: the DFS checks its iteration counter first thing in every call: once
`maxIterations` (50000) calls have been counted, a call returns failure
immediately, touching neither `visited` nor the path.  From a fresh attempt
(counter 0, as `_findHamiltonianPath` starts each corner) the total number of
counted recursive calls is at most `1 + 4 · 50000` (each call past the cap
still increments the counter once before bailing out, and a call below the
cap spawns at most 4 children, one per neighbour), so every search attempt
terminates within a bounded number of steps. -/
theorem c6_iteration_cap (obs : Finset Pos) (size target : Nat) (o : Oracle)
    (fuel : Nat) (pos : Pos) (v : Finset Pos) (p : List Pos) (it k : Nat) :
    (maxIterations ≤ it →
      hamiltonianDFS obs size target maxIterations o fuel pos v p it k
        = ⟨false, v, p, it + 1, k⟩) ∧
    (hamiltonianDFS obs size target maxIterations o fuel pos v p 0 k).iter
      ≤ 1 + 4 * maxIterations := by
  constructor
  · intro h
    exact hamiltonianDFS_capped obs size target maxIterations o fuel pos v p it k h
  · have h := hamiltonianDFS_iter_bound obs size target maxIterations o fuel pos v p 0 k
    omega

theorem c6_iteration_cap_witness :
    (hamiltonianDFS ∅ 2 4 maxIterations oracle3 1 (0, 0) ∅ [] maxIterations 0
      = ⟨false, ∅, [], maxIterations + 1, 0⟩) ∧
    (hamiltonianDFS ∅ 2 4 maxIterations oracle3 1 (0, 0) ∅ [] 0 0).iter
      ≤ 1 + 4 * maxIterations :=
  ⟨(c6_iteration_cap ∅ 2 4 oracle3 1 (0, 0) ∅ [] maxIterations 0).1 (le_refl _),
   (c6_iteration_cap ∅ 2 4 oracle3 1 (0, 0) ∅ [] maxIterations 0).2⟩

/-- The value of the `Math.random()` cursor when the `i`-th generation
attempt of the `for` loop starts (attempt 0 starts at cursor `k`). -/
def attemptCursor (size numPoints maxO : Nat) (o : Oracle) (k : Nat) : Nat → Nat
  | 0 => k
  | i + 1 => (tryGenerateLevel size numPoints maxO o
      (attemptCursor size numPoints maxO o k i)).2

/-- The level (or `none`) the `i`-th generation attempt produces. -/
def attemptResult (size numPoints maxO : Nat) (o : Oracle) (k : Nat) (i : Nat) : Option Level :=
  (tryGenerateLevel size numPoints maxO o (attemptCursor size numPoints maxO o k i)).1

theorem attemptCursor_shift (size numPoints maxO : Nat) (o : Oracle) (k : Nat) :
    ∀ i, attemptCursor size numPoints maxO o k (i + 1) =
      attemptCursor size numPoints maxO o (tryGenerateLevel size numPoints maxO o k).2 i := by
  intro i
  induction i with
  | zero => rfl
  | succ i ih =>
    show (tryGenerateLevel size numPoints maxO o
        (attemptCursor size numPoints maxO o k (i + 1))).2
      = (tryGenerateLevel size numPoints maxO o (attemptCursor size numPoints maxO o
          (tryGenerateLevel size numPoints maxO o k).2 i)).2
    rw [ih]

theorem generateAttempts_fail_all (size numPoints maxO : Nat) (o : Oracle) :
    ∀ n k,
      (∀ i, i < n → attemptResult size numPoints maxO o k i = none) →
      generateAttempts size numPoints maxO o n k
        = (none, attemptCursor size numPoints maxO o k n) := by
  intro n
  induction n with
  | zero => intro k _; rfl
  | succ n ih =>
    intro k h
    have h0 : (tryGenerateLevel size numPoints maxO o k).1 = none := h 0 (Nat.succ_pos n)
    unfold generateAttempts
    have heta : tryGenerateLevel size numPoints maxO o k
        = (none, (tryGenerateLevel size numPoints maxO o k).2) := by
      rw [← h0]
    rw [heta]
    dsimp only
    have hrest : ∀ i, i < n → attemptResult size numPoints maxO o
        (tryGenerateLevel size numPoints maxO o k).2 i = none := by
      intro i hi
      have h1 := h (i + 1) (by omega)
      unfold attemptResult at h1 ⊢
      rwa [attemptCursor_shift] at h1
    rw [ih _ hrest, Prod.mk.injEq]
    refine ⟨rfl, ?_⟩
    rw [attemptCursor_shift]

theorem generateAttempts_first_success (size numPoints maxO : Nat) (o : Oracle) :
    ∀ n k lvl k2,
      generateAttempts size numPoints maxO o n k = (some lvl, k2) →
      ∃ i, i < n ∧ (∀ j, j < i → attemptResult size numPoints maxO o k j = none) ∧
        attemptResult size numPoints maxO o k i = some lvl := by
  intro n
  induction n with
  | zero => intro k lvl k2 h; cases h
  | succ n ih =>
    intro k lvl k2 h
    unfold generateAttempts at h
    split at h
    · rename_i lvl' k' heq
      obtain ⟨h1, h2⟩ := Prod.mk.injEq .. ▸ h
      rw [Option.some_inj] at h1
      subst h1
      refine ⟨0, Nat.succ_pos n, fun j hj => absurd hj (Nat.not_lt_zero j), ?_⟩
      have hc : attemptCursor size numPoints maxO o k 0 = k := rfl
      unfold attemptResult
      rw [hc, heq]
    · rename_i k' heq
      obtain ⟨i, hi, hfail, hsucc⟩ := ih k' lvl k2 h
      refine ⟨i + 1, by omega, ?_, ?_⟩
      · intro j hj
        cases j with
        | zero =>
          have hc : attemptCursor size numPoints maxO o k 0 = k := rfl
          unfold attemptResult
          rw [hc, heq]
        | succ j =>
          have h1 := hfail j (by omega)
          unfold attemptResult at h1 ⊢
          rw [attemptCursor_shift, heq]
          exact h1
      · unfold attemptResult at hsucc ⊢
        rw [attemptCursor_shift, heq]
        exact hsucc

/-- C7: the `for` loop of `generate` makes at most 50 attempts with
obstacles: a successful return is the result of the first succeeding attempt
among the first 50 (all earlier ones having failed); if all 50 fail, the
returned value is exactly the result of the single zero-obstacle fallback
attempt — `some` level if it succeeds, `null` if it fails — so the
generator never loops beyond 50 attempts plus one fallback. -/
theorem c7_attempt_budget_and_fallback (size numPoints obstaclePercent : Nat) (o : Oracle) :
    (∀ lvl k2,
      generateAttempts size numPoints (size * size * obstaclePercent / 100) o 50 0
        = (some lvl, k2) →
      (∃ i, i < 50 ∧
        (∀ j, j < i →
          attemptResult size numPoints (size * size * obstaclePercent / 100) o 0 j = none) ∧
        attemptResult size numPoints (size * size * obstaclePercent / 100) o 0 i = some lvl) ∧
      LevelGenerator.generate size numPoints obstaclePercent o = some lvl) ∧
    ((∀ i, i < 50 →
        attemptResult size numPoints (size * size * obstaclePercent / 100) o 0 i = none) →
      LevelGenerator.generate size numPoints obstaclePercent o
        = (tryGenerateLevel size numPoints 0 o
            (attemptCursor size numPoints (size * size * obstaclePercent / 100) o 0 50)).1) := by
  constructor
  · intro lvl k2 h
    refine ⟨generateAttempts_first_success _ _ _ _ _ _ _ _ h, ?_⟩
    unfold LevelGenerator.generate
    dsimp only
    rw [h]
  · intro h
    unfold LevelGenerator.generate
    dsimp only
    rw [generateAttempts_fail_all _ _ _ _ _ _ h]

set_option maxHeartbeats 4000000 in
theorem c7_attempt_budget_and_fallback_witness :
    ((∃ i, i < 50 ∧
        (∀ j, j < i → attemptResult 2 2 0 oracle3 0 j = none) ∧
        attemptResult 2 2 0 oracle3 0 i = some lvlC4w) ∧
      LevelGenerator.generate 2 2 0 oracle3 = some lvlC4w) ∧
    LevelGenerator.generate 0 2 0 oracle3
      = (tryGenerateLevel 0 2 0 oracle3 (attemptCursor 0 2 0 oracle3 0 50)).1 :=
  ⟨(c7_attempt_budget_and_fallback 2 2 0 oracle3).1 lvlC4w 6 (by decide),
   (c7_attempt_budget_and_fallback 0 2 0 oracle3).2 (by decide)⟩

/-- The path index `_placePoints` assigns to point `i` (0-based): index 0 for
the first point, the last path index for the last point, `i · ⌊L/n⌋`
otherwise. -/
def pointIndex (L n i : Nat) : Nat :=
  if i = 0 then 0 else if i = n - 1 then L - 1 else i * (L / n)

/-- Concatenation of consecutive segments sharing their junction cell: the
first segment in full, every later one without its first cell. -/
def segJoin : List (List Pos) → List Pos
  | [] => []
  | s :: rest => s ++ (rest.map (fun t => t.drop 1)).flatten

theorem pointIndex_zero (L n : Nat) : pointIndex L n 0 = 0 := rfl

theorem pointIndex_last (L n : Nat) (h2 : 2 ≤ n) : pointIndex L n (n - 1) = L - 1 := by
  unfold pointIndex
  rw [if_neg (by omega), if_pos rfl]

theorem pointIndex_le (L n : Nat) (h2 : 2 ≤ n) (hle : n ≤ L) (i : Nat) (hi : i < n) :
    pointIndex L n i ≤ L - 1 := by
  unfold pointIndex
  have hs1 : 1 ≤ L / n := (Nat.one_le_div_iff (by omega)).2 hle
  have hb : L / n * n ≤ L := Nat.div_mul_le_self L n
  split
  · omega
  · split
    · omega
    · have ha : (i + 2) * (L / n) ≤ n * (L / n) := Nat.mul_le_mul_right _ (by omega)
      rw [Nat.add_mul] at ha
      have hb2 : n * (L / n) ≤ L := by rw [Nat.mul_comm]; exact hb
      omega

theorem pointIndex_lt (L n : Nat) (h2 : 2 ≤ n) (hle : n ≤ L) (i j : Nat)
    (hij : i < j) (hj : j < n) : pointIndex L n i < pointIndex L n j := by
  unfold pointIndex
  have hs1 : 1 ≤ L / n := (Nat.one_le_div_iff (by omega)).2 hle
  have hb : L / n * n ≤ L := Nat.div_mul_le_self L n
  by_cases hi0 : i = 0
  · subst hi0
    rw [if_pos rfl]
    by_cases hjn : j = n - 1
    · rw [if_neg (by omega), if_pos hjn]
      omega
    · rw [if_neg (by omega), if_neg hjn]
      have hone : 1 * (L / n) ≤ j * (L / n) := Nat.mul_le_mul_right _ (by omega)
      rw [Nat.one_mul] at hone
      omega
  · by_cases hjn : j = n - 1
    · rw [if_neg hi0, if_neg (by omega : ¬i = n - 1), if_neg (by omega : ¬j = 0), if_pos hjn]
      have ha : (i + 2) * (L / n) ≤ n * (L / n) := Nat.mul_le_mul_right _ (by omega)
      rw [Nat.add_mul] at ha
      have hb2 : n * (L / n) ≤ L := by rw [Nat.mul_comm]; exact hb
      omega
    · rw [if_neg hi0, if_neg (by omega : ¬i = n - 1), if_neg (by omega : ¬j = 0), if_neg hjn]
      have hone : (i + 1) * (L / n) ≤ j * (L / n) := Nat.mul_le_mul_right _ (by omega)
      rw [Nat.add_mul, Nat.one_mul] at hone
      omega

theorem jsSlice_of_le (l : List Pos) (a b : Nat) (ha : a ≤ l.length) (hb : b ≤ l.length) :
    jsSlice l (a : Int) (b : Int) = (l.take b).drop a := by
  unfold jsSlice
  dsimp only
  rw [if_neg (by omega), if_neg (by omega)]
  have h1 : (min (a : Int) (l.length : Int)).toNat = a := by omega
  have h2 : (min (b : Int) (l.length : Int)).toNat = b := by omega
  rw [h1, h2]

theorem getD_map_range {β : Type} (n i : Nat) (f : Nat → β) (d : β) (hi : i < n) :
    ((List.range n).map f).getD i d = f i := by
  rw [List.getD_eq_getElem?_getD, List.getElem?_map, List.getElem?_range hi]
  rfl

theorem findIdx_getD_of_nodup (l : List Pos) (hnd : l.Nodup) (i : Nat) (hi : i < l.length) :
    l.findIdx? (fun q => q.1 = (l.getD i (0, 0)).1 && q.2 = (l.getD i (0, 0)).2) = some i := by
  rw [List.findIdx?_eq_some_iff_getElem]
  have hgd : l.getD i (0, 0) = l[i] := List.getD_eq_getElem l (0, 0) hi
  refine ⟨hi, ?_, ?_⟩
  · rw [hgd]
    simp
  · intro j hji
    have hj : j < l.length := lt_trans hji hi
    rw [hgd]
    simp only [Bool.and_eq_true, decide_eq_true_eq, not_and]
    intro h1 h2
    have heq : l[j] = l[i] := by
      have hp1 : l[j].1 = l[i].1 := h1
      have hp2 : l[j].2 = l[i].2 := h2
      exact Prod.ext hp1 hp2
    exact absurd ((List.Nodup.getElem_inj_iff hnd).1 heq) (by omega)

theorem placePoints_length (path : List Pos) (n : Nat) : (placePoints path n).length = n := by
  unfold placePoints
  dsimp only
  rw [List.length_map, List.length_range]

theorem placePoints_map_number (path : List Pos) (n : Nat) :
    (placePoints path n).map Point.number
      = (List.range n).map (fun (i : Nat) => (i : Int) + 1) := by
  unfold placePoints
  dsimp only
  rw [List.map_map]
  rfl

theorem placePoints_getD (path : List Pos) (n : Nat) (i : Nat) (hi : i < n) :
    (placePoints path n).getD i { number := 0, row := 0, col := 0 }
      = { number := (i : Int) + 1,
          row := (path.getD (pointIndex path.length n i) (0, 0)).1,
          col := (path.getD (pointIndex path.length n i) (0, 0)).2 } := by
  unfold placePoints
  dsimp only
  rw [getD_map_range _ _ _ _ hi]
  rfl

theorem createSolution_length (path : List Pos) (pts : List Point) :
    (createSolution path pts).length = pts.length - 1 := by
  unfold createSolution
  dsimp only
  rw [List.length_map, List.length_range]

theorem createSolution_pointIndices (path : List Pos) (n : Nat) (hnd : path.Nodup)
    (h2 : 2 ≤ n) (hle : n ≤ path.length) (j : Nat) (hj : j < n) :
    ((placePoints path n).map (fun pt =>
      match path.findIdx? (fun q => q.1 = pt.row && q.2 = pt.col) with
      | some idx => (idx : Int)
      | none => -1)).getD j (-1) = (pointIndex path.length n j : Int) := by
  have hjlen : j < (placePoints path n).length := by rw [placePoints_length]; exact hj
  rw [List.getD_eq_getElem?_getD, List.getElem?_map, List.getElem?_eq_getElem hjlen]
  rw [← List.getD_eq_getElem (placePoints path n) { number := 0, row := 0, col := 0 } hjlen]
  rw [placePoints_getD path n j hj]
  have hlt : pointIndex path.length n j < path.length := by
    have := pointIndex_le path.length n h2 hle j hj
    omega
  rw [Option.map_some', Option.getD_some]
  dsimp only
  rw [findIdx_getD_of_nodup path hnd _ hlt]

theorem createSolution_placePoints_getD (path : List Pos) (n : Nat) (hnd : path.Nodup)
    (h2 : 2 ≤ n) (hle : n ≤ path.length) (i : Nat) (hi : i < n - 1) :
    (createSolution path (placePoints path n)).getD i { fromPoint := 0, toPoint := 0, path := [] }
      = { fromPoint := (i : Int) + 1, toPoint := (i : Int) + 2,
          path := (path.take (pointIndex path.length n (i + 1) + 1)).drop
            (pointIndex path.length n i) } := by
  unfold createSolution
  dsimp only
  rw [placePoints_length]
  rw [getD_map_range _ _ _ _ hi]
  rw [createSolution_pointIndices path n hnd h2 hle i (by omega),
      createSolution_pointIndices path n hnd h2 hle (i + 1) (by omega)]
  have hle1 : pointIndex path.length n i ≤ path.length := by
    have := pointIndex_le path.length n h2 hle i (by omega)
    omega
  have hle2 : pointIndex path.length n (i + 1) + 1 ≤ path.length := by
    have := pointIndex_le path.length n h2 hle (i + 1) (by omega)
    omega
  have hcast : ((pointIndex path.length n (i + 1) : Int) + 1)
      = ((pointIndex path.length n (i + 1) + 1 : Nat) : Int) := by push_cast; ring
  rw [hcast, jsSlice_of_le path _ _ hle1 hle2]

theorem segJoin_append_single (ss : List (List Pos)) (s : List Pos) (h : ss ≠ []) :
    segJoin (ss ++ [s]) = segJoin ss ++ s.drop 1 := by
  cases ss with
  | nil => exact absurd rfl h
  | cons s0 rest =>
    show s0 ++ ((rest ++ [s]).map (fun t => t.drop 1)).flatten
      = (s0 ++ (rest.map (fun t => t.drop 1)).flatten) ++ s.drop 1
    rw [List.map_append, List.flatten_append]
    simp [List.append_assoc]

theorem segJoin_slices (path : List Pos) (a : Nat → Nat) (h0 : a 0 = 0) :
    ∀ m, 1 ≤ m → (∀ i, i < m → a i < a (i + 1)) →
    segJoin ((List.range m).map (fun i => (path.take (a (i + 1) + 1)).drop (a i)))
      = path.take (a m + 1) := by
  intro m
  induction m with
  | zero => intro h; omega
  | succ m ih =>
    intro _ hmono
    by_cases hm : m = 0
    · subst hm
      show (path.take (a 1 + 1)).drop (a 0)
          ++ (([] : List (List Pos)).map (fun t => t.drop 1)).flatten = path.take (a 1 + 1)
      rw [h0, List.drop_zero]
      simp
    · have h1m : 1 ≤ m := by omega
      rw [List.range_succ, List.map_append]
      rw [List.map_singleton, segJoin_append_single _ _ (by
        intro hc
        rw [List.map_eq_nil] at hc
        exact absurd hc (List.range_ne_nil.2 hm))]
      rw [ih h1m (fun i hi => hmono i (by omega))]
      rw [List.drop_drop]
      have hcut : a m + 1 ≤ a (m + 1) + 1 := by
        have := hmono m (by omega)
        omega
      conv_rhs => rw [← List.take_append_drop (a m + 1) (path.take (a (m + 1) + 1))]
      rw [List.take_take, min_eq_left hcut]

theorem createSolution_map_path (path : List Pos) (n : Nat) (hnd : path.Nodup)
    (h2 : 2 ≤ n) (hle : n ≤ path.length) :
    (createSolution path (placePoints path n)).map Segment.path
      = (List.range (n - 1)).map (fun i =>
          (path.take (pointIndex path.length n (i + 1) + 1)).drop
            (pointIndex path.length n i)) := by
  apply List.ext_getElem
  · rw [List.length_map, createSolution_length, placePoints_length,
      List.length_map, List.length_range]
  · intro i hi1 hi2
    rw [List.length_map, createSolution_length, placePoints_length] at hi1
    rw [List.getElem_map, List.getElem_map, List.getElem_range]
    have hlen : i < (createSolution path (placePoints path n)).length := by
      rw [createSolution_length, placePoints_length]
      exact hi1
    rw [← List.getD_eq_getElem (createSolution path (placePoints path n))
      { fromPoint := 0, toPoint := 0, path := [] } hlen]
    rw [createSolution_placePoints_getD path n hnd h2 hle i hi1]

/-- C5 (amended): when `2 ≤ numPoints ≤ path.length` and the path is
duplicate-free, `_placePoints` numbers its points `1..numPoints` in order and
places them at strictly increasing path indices — index 0 first,
`path.length − 1` last — and `_createSolution` produces `numPoints − 1`
segments: segment `i` is exactly the contiguous slice of the path between
point `i`'s index and point `i+1`'s index (both endpoints included), each
segment is duplicate-free with the shared junction cell as its last
(resp. first) cell, and concatenating the segments — counting every junction
cell once — rebuilds the full path with no gaps or overlaps. -/
theorem c5_points_spacing_and_segment_concatenation
    (path : List Pos) (numPoints : Nat) (hnd : path.Nodup)
    (h2 : 2 ≤ numPoints) (hle : numPoints ≤ path.length) :
    ((placePoints path numPoints).map Point.number
      = (List.range numPoints).map (fun (i : Nat) => (i : Int) + 1)) ∧
    (∀ i, i < numPoints →
      (placePoints path numPoints).getD i { number := 0, row := 0, col := 0 }
        = { number := (i : Int) + 1,
            row := (path.getD (pointIndex path.length numPoints i) (0, 0)).1,
            col := (path.getD (pointIndex path.length numPoints i) (0, 0)).2 }) ∧
    pointIndex path.length numPoints 0 = 0 ∧
    pointIndex path.length numPoints (numPoints - 1) = path.length - 1 ∧
    (∀ i j, i < j → j < numPoints →
      pointIndex path.length numPoints i < pointIndex path.length numPoints j) ∧
    (createSolution path (placePoints path numPoints)).length = numPoints - 1 ∧
    (∀ i, i < numPoints - 1 →
      ((createSolution path (placePoints path numPoints)).getD i
          { fromPoint := 0, toPoint := 0, path := [] }).path
        = (path.take (pointIndex path.length numPoints (i + 1) + 1)).drop
            (pointIndex path.length numPoints i) ∧
      ((createSolution path (placePoints path numPoints)).getD i
          { fromPoint := 0, toPoint := 0, path := [] }).path.Nodup ∧
      ((createSolution path (placePoints path numPoints)).getD i
          { fromPoint := 0, toPoint := 0, path := [] }).path.head?
        = some (path.getD (pointIndex path.length numPoints i) (0, 0)) ∧
      ((createSolution path (placePoints path numPoints)).getD i
          { fromPoint := 0, toPoint := 0, path := [] }).path.getLast?
        = some (path.getD (pointIndex path.length numPoints (i + 1)) (0, 0))) ∧
    segJoin ((createSolution path (placePoints path numPoints)).map Segment.path) = path := by
  refine ⟨placePoints_map_number path numPoints,
    fun i hi => placePoints_getD path numPoints i hi,
    pointIndex_zero _ _,
    pointIndex_last _ _ h2,
    fun i j hij hj => pointIndex_lt _ _ h2 hle i j hij hj,
    by rw [createSolution_length, placePoints_length],
    ?_, ?_⟩
  · intro i hi
    have hseg := createSolution_placePoints_getD path numPoints hnd h2 hle i hi
    rw [hseg]
    dsimp only
    have hab : pointIndex path.length numPoints i < pointIndex path.length numPoints (i + 1) :=
      pointIndex_lt _ _ h2 hle i (i + 1) (by omega) (by omega)
    have haL : pointIndex path.length numPoints i < path.length := by
      have := pointIndex_le path.length numPoints h2 hle i (by omega)
      omega
    have hbL : pointIndex path.length numPoints (i + 1) < path.length := by
      have := pointIndex_le path.length numPoints h2 hle (i + 1) (by omega)
      omega
    refine ⟨rfl, ?_, ?_, ?_⟩
    · exact ((List.drop_sublist _ _).trans (List.take_sublist _ _)).nodup hnd
    · rw [List.head?_drop, List.getElem?_take, if_pos (by omega),
        List.getElem?_eq_getElem haL,
        ← List.getD_eq_getElem path (0, 0) haL]
    · have hlen : ((path.take (pointIndex path.length numPoints (i + 1) + 1)).drop
          (pointIndex path.length numPoints i)).length
          = pointIndex path.length numPoints (i + 1) + 1
            - pointIndex path.length numPoints i := by
        simp only [List.length_drop, List.length_take]
        omega
      rw [List.getLast?_eq_getElem?, hlen, List.getElem?_drop, List.getElem?_take,
        if_pos (by omega)]
      have hidx : pointIndex path.length numPoints i
          + (pointIndex path.length numPoints (i + 1) + 1
            - pointIndex path.length numPoints i - 1)
          = pointIndex path.length numPoints (i + 1) := by omega
      rw [hidx, List.getElem?_eq_getElem hbL, ← List.getD_eq_getElem path (0, 0) hbL]
  · rw [createSolution_map_path path numPoints hnd h2 hle]
    rw [segJoin_slices path _ (pointIndex_zero _ _) (numPoints - 1) (by omega)
      (fun i hi => pointIndex_lt _ _ h2 hle i (i + 1) (by omega) (by omega))]
    rw [pointIndex_last _ _ h2]
    have hL : path.length - 1 + 1 = path.length := by omega
    rw [hL, List.take_length]

/-- The level `generate 2 5 0 oracle3` produces: `numPoints = 5` exceeds the
4-cell path, so `spacing = ⌊4/5⌋ = 0` and points 1–4 all land on path
index 0. -/
def lvlC5cex : Level :=
  { size := 2,
    points := [{ number := 1, row := 1, col := 0 }, { number := 2, row := 1, col := 0 },
               { number := 3, row := 1, col := 0 }, { number := 4, row := 1, col := 0 },
               { number := 5, row := 1, col := 1 }],
    obstacles := [],
    solution := [{ fromPoint := 1, toPoint := 2, path := [(1, 0)] },
                 { fromPoint := 2, toPoint := 3, path := [(1, 0)] },
                 { fromPoint := 3, toPoint := 4, path := [(1, 0)] },
                 { fromPoint := 4, toPoint := 5, path := [(1, 0), (0, 0), (0, 1), (1, 1)] }],
    theme := 3, difficulty := 1 }

set_option maxHeartbeats 4000000 in
theorem c5_point_placement_counterexample :
    LevelGenerator.generate 2 5 0 oracle3 = some lvlC5cex ∧
    lvlC5cex.points.map Point.pos = [(1, 0), (1, 0), (1, 0), (1, 0), (1, 1)] ∧
    lvlC5cex.solution.map Segment.path
      = [[(1, 0)], [(1, 0)], [(1, 0)], [(1, 0), (0, 0), (0, 1), (1, 1)]] :=
  ⟨by decide, rfl, rfl⟩

/-- The Hamiltonian path of the level `generate 2 2 0 oracle3` produces. -/
def pathC5w : List Pos := [(1, 0), (0, 0), (0, 1), (1, 1)]

theorem c5_points_spacing_and_segment_concatenation_witness :
    (placePoints pathC5w 2).map Point.number
      = (List.range 2).map (fun (i : Nat) => (i : Int) + 1) ∧
    segJoin ((createSolution pathC5w (placePoints pathC5w 2)).map Segment.path) = pathC5w := by
  obtain ⟨h1, -, -, -, -, -, -, h8⟩ :=
    c5_points_spacing_and_segment_concatenation pathC5w 2 (by decide) (by decide) (by decide)
  exact ⟨h1, h8⟩

end Amazeing
